import Mathlib

/-!
Verification of the BlenderGIS basemaps core (basemaps/mapviewer.py and
geoscene/proj.py) against its natural-language specification.

Shallow embedding conventions:
  - Python ints are modelled by Int (tile columns, rows, zoom indices,
    timestamps in whole days); grid coordinates and resolutions by a
    generic linearly ordered field, instantiated at Rat for concrete
    evaluation and at Real where the source uses math.pi.
  - Python exceptions are modelled by the PyErr type; a function that can
    raise returns Except PyErr or Option values as appropriate.
  - Python list indexing (including negative indices counting from the
    end, and IndexError as none) is modelled by pyGet.
  - The sqlite gpkg_tiles table is modelled as a list of rows in rowid
    order; INSERT OR REPLACE removes the conflicting row and appends.
  - datetime deltas are modelled at day granularity, the only granularity
    the source compares (timeDelta.days > MAX_DAYS).
-/

/-- Opaque encoded image bytes; only identity and an externally supplied
sniffing predicate matter to the modelled code. -/
abbrev Bytes : Type := Nat

/-- Python exceptions raised by the modelled code paths. -/
inductive PyErr : Type
  /-- ValueError, e.g. the destination grid is undefined, or zip() unpack
  of an empty sequence in GeoPackage.getTiles. -/
  | valueError
  /-- IndexError from an out-of-range Python list subscript. -/
  | indexError
  /-- AttributeError from reading an attribute that was never assigned. -/
  | attributeError
  /-- TypeError, e.g. comparing None with an int. -/
  | typeError
  /-- sqlite3.DatabaseError from executing a statement on a file that is
  not a database. -/
  | databaseError
  /-- sqlite3.OperationalError, e.g. CREATE TABLE when the table exists. -/
  | operationalError
deriving DecidableEq, Repr

/-- Unit kind of a grid CRS, the value of TileMatrix.units (derived once
from the CRS at construction; the derivation itself calls external
libraries and is kept as a stored field). -/
inductive UnitKind : Type
  | degrees
  | meters
deriving DecidableEq, Repr

/-- Origin corner convention of a tile matrix (TileMatrix.originLoc). -/
inductive OriginLoc : Type
  | NW
  | SW
deriving DecidableEq, Repr

/-- Rule argument of TileMatrix.getNearestZoom. -/
inductive Rule : Type
  | lower
  | higher
  | closer
deriving DecidableEq, Repr

/-- Python list subscript l[i]: non-negative indices from the front,
negative indices from the back, IndexError (none) when out of range. -/
def pyGet {β : Type*} (l : List β) (i : Int) : Option β :=
  if 0 ≤ i then l.get? i.toNat
  else if (-i).toNat ≤ l.length then l.get? (l.length - (-i).toNat)
  else none

/-- The three ways a grid defines its zoom series, as left by
TileMatrix.__init__: either an explicit resolutions list (sorted in
descending order by __init__), or the pair initRes / resFactor together
with the nbLevels attribute. -/
inductive ResDef (α : Type*) : Type _
  | explicitList (resolutions : List α)
  | factor (initRes resFactor : α) (nbLevels : Nat)

/-- State of a TileMatrix object after __init__: the resolution
definition, tile pixel size, origin convention, derived unit kind and the
global bounding box already converted to the grid CRS. -/
structure TileMatrix (α : Type*) : Type _ where
  resDef : ResDef α
  tileSize : Nat
  originLoc : OriginLoc
  units : UnitKind
  xmin : α
  ymin : α
  xmax : α
  ymax : α

namespace TileMatrix

variable {α : Type*} [LinearOrderedField α]

/-- Number of zoom levels: length of the explicit list, or the nbLevels
attribute in factor mode. -/
def nbLevels (tm : TileMatrix α) : Nat :=
  match tm.resDef with
  | .explicitList l => l.length
  | .factor _ _ n => n

/-- TileMatrix.getResList. -/
def getResList (tm : TileMatrix α) : List α :=
  match tm.resDef with
  | .explicitList l => l
  | .factor i f n => (List.range n).map (fun z => i / f ^ z)

/-- TileMatrix.getRes on an explicit resolutions list: the source clamps
zoom to len(resolutions) when zoom > len(resolutions) and then subscripts
the list at the clamped index. -/
def getResExplicit (l : List α) (zoom : Int) : Option α :=
  pyGet l (if zoom > (l.length : Int) then (l.length : Int) else zoom)

/-- TileMatrix.getRes: resolution for a given zoom level; none models a
raised IndexError. In factor mode the source computes
initRes / resFactor ** zoom, defined for negative zoom as well. -/
def getRes (tm : TileMatrix α) (zoom : Int) : Option α :=
  match tm.resDef with
  | .explicitList l => getResExplicit l zoom
  | .factor i f _ => some (i / f ^ zoom)

/-- TileMatrix x origin: xmin for both origin conventions. -/
def originx (tm : TileMatrix α) : α := tm.xmin

/-- TileMatrix y origin: ymax for NW, ymin for SW. -/
def originy (tm : TileMatrix α) : α :=
  match tm.originLoc with
  | .NW => tm.ymax
  | .SW => tm.ymin

/-- TileMatrix.getTileCoords: top-left projected coordinates of a tile. -/
def getTileCoords (tm : TileMatrix α) (col row zoom : Int) : Option (α × α) :=
  (tm.getRes zoom).map fun res =>
    let geoTileSize : α := (tm.tileSize : α) * res
    let x : α := tm.originx + (col : α) * geoTileSize
    let y : α :=
      match tm.originLoc with
      | .NW => tm.originy - (row : α) * geoTileSize
      | .SW => tm.originy + (row : α) * geoTileSize + geoTileSize
    (x, y)

/-- TileMatrix.getTileBbox: (xmin, ymin, xmax, ymax) of a tile. -/
def getTileBbox (tm : TileMatrix α) (col row zoom : Int) : Option (α × α × α × α) :=
  (tm.getRes zoom).bind fun res =>
    (tm.getTileCoords col row zoom).map fun xy =>
      let g : α := (tm.tileSize : α) * res
      (xy.1, xy.2 - g, xy.1 + g, xy.2)

/-- TileMatrix.getTileNumber: projected coordinates to tile indices. -/
def getTileNumber [FloorRing α] (tm : TileMatrix α) (x y : α) (zoom : Int) :
    Option (Int × Int) :=
  (tm.getRes zoom).map fun res =>
    let geoTileSize : α := (tm.tileSize : α) * res
    let dx : α := x - tm.originx
    let dy : α :=
      match tm.originLoc with
      | .NW => tm.originy - y
      | .SW => y - tm.originy
    (⌊dx / geoTileSize⌋, ⌊dy / geoTileSize⌋)

/-- Loop body of TileMatrix.getNearestZoom: scans the resolution list from
position z1, returning at the first firing check of the source loop
(exact match on the current entry, last index reached, exact match on the
next entry, or a bracketing pair resolved by the rule). -/
def nearestZoomGo (res : α) (rule : Rule) : List α → Nat → Option Nat
  | [], _ => none
  | [v1], z1 => if v1 = res then some z1 else some z1
  | v1 :: v2 :: rest, z1 =>
    if v1 = res then some z1
    else if v2 = res then some (z1 + 1)
    else if v1 > res ∧ res > v2 then
      match rule with
      | .lower => some z1
      | .higher => some (z1 + 1)
      | .closer => if v1 - res < res - v2 then some z1 else some (z1 + 1)
    else nearestZoomGo res rule (v2 :: rest) (z1 + 1)

/-- TileMatrix.getNearestZoom: zoom level closest to the submitted
resolution; none models the loop falling through on an empty list (the
source then implicitly returns None). -/
def getNearestZoom (tm : TileMatrix α) (res : α) (rule : Rule) : Option Nat :=
  nearestZoomGo res rule tm.getResList 0

/-- TileMatrix.getFromToResFac: resolution factor from zoom z1 to z2 with
the boundary guards of the source; none models a raised IndexError from
getRes. -/
def getFromToResFac (tm : TileMatrix α) (z1 z2 : Int) : Option α :=
  if z1 = z2 then some 1
  else if z1 < z2 then
    if z2 ≥ (tm.nbLevels : Int) - 1 then some 1
    else (tm.getRes z2).bind fun r2 => (tm.getRes z1).map fun r1 => r2 / r1
  else
    if z2 ≤ 0 then some 1
    else (tm.getRes z2).bind fun r2 => (tm.getRes z1).map fun r1 => r2 / r1

end TileMatrix

/-! ## geoscene/proj.py: ellipsoid and the linear degree-meter conversion -/

/-- Ellps from proj.py: an ellipsoid given by its equatorial and polar
radii in meters. -/
structure Ellps : Type where
  a : ℝ
  b : ℝ

/-- Ellps perimeter at the equator: 2 * pi * a. -/
noncomputable def Ellps.perimeter (e : Ellps) : ℝ := 2 * Real.pi * e.a

/-- The GRS80 ellipsoid instantiated in proj.py. -/
noncomputable def GRS80 : Ellps := ⟨6378137, 6356752.314245⟩

/-- dd2meters from proj.py: approximate conversion of a short distance in
decimal degrees to meters, linear with slope perimeter / 360. -/
noncomputable def dd2meters (dst : ℝ) : ℝ := dst * (GRS80.perimeter / 360)

/-- meters2dd from proj.py: inverse linear conversion. -/
noncomputable def meters2dd (dst : ℝ) : ℝ := dst / (GRS80.perimeter / 360)

/-! ## GeoPackage tile storage (gpkg_tiles table) -/

/-- One row of the gpkg_tiles table: key columns, the blob and the
last_modified timestamp (whole days; the source only ever compares the
day count of a timestamp delta). -/
structure TileRow : Type where
  col : Int
  row : Int
  zoom : Int
  data : Bytes
  lastMod : Int
deriving DecidableEq, Repr

/-- The gpkg_tiles table as a list of rows in rowid order (AUTOINCREMENT:
later inserts come later in the list). -/
abbrev TileTable : Type := List TileRow

namespace GeoPackage

/-- GeoPackage.MAX_DAYS. -/
def MAX_DAYS : Int := 90

/-- Whether a row matches the key of the WHERE clause
zoom_level=? AND tile_column=? AND tile_row=?. -/
def keyMatch (z x y : Int) (r : TileRow) : Bool :=
  decide (r.zoom = z ∧ r.col = x ∧ r.row = y)

/-- GeoPackage.getTile: fetch the first row for the key, treat a missing
row as absent, and treat a row older than MAX_DAYS as absent without
deleting it. -/
def getTile (s : TileTable) (now : Int) (x y z : Int) : Option Bytes :=
  match s.find? (keyMatch z x y) with
  | none => none
  | some r => if now - r.lastMod > MAX_DAYS then none else some r.data

/-- GeoPackage.putTile: INSERT OR REPLACE on the unique key
(zoom, col, row); the conflicting row is removed and the new row is
appended with a fresh rowid and last_modified = now. -/
def putTile (s : TileTable) (now : Int) (x y z : Int) (d : Bytes) : TileTable :=
  s.filter (fun r => !keyMatch z x y r) ++ [⟨x, y, z, d, now⟩]

/-- GeoPackage.getTiles: the source unpacks zip(*tiles), which raises
ValueError on an empty batch (modelled none), and otherwise runs a single
SELECT whose WHERE clause is tile_column IN xs AND tile_row IN ys AND
zoom_level IN zs, a cross-membership filter over the requested
coordinates, with no last_modified check. -/
def getTilesHits (s : TileTable) (tiles : List (Int × Int × Int)) :
    List (Int × Int × Int × Bytes) :=
  let xs : List Int := tiles.map (fun t => t.1)
  let ys : List Int := tiles.map (fun t => t.2.1)
  let zs : List Int := tiles.map (fun t => t.2.2)
  (s.filter (fun r => decide (r.col ∈ xs ∧ r.row ∈ ys ∧ r.zoom ∈ zs))).map
    (fun r => (r.col, r.row, r.zoom, r.data))

def getTiles (s : TileTable) (tiles : List (Int × Int × Int)) :
    Option (List (Int × Int × Int × Bytes)) :=
  match tiles with
  | [] => none
  | _ => some (getTilesHits s tiles)

/-- GeoPackage.putTiles: executemany of the putTile statement over the
batch, in order, inside one transaction. -/
def putTiles (s : TileTable) (now : Int) (tiles : List (Int × Int × Int × Bytes)) :
    TileTable :=
  tiles.foldl (fun acc t => putTile acc now t.1 t.2.1 t.2.2.1 t.2.2.2) s

/-- Modelled from the spec: the reference behaviour of a batch read as N
sequential single-key GeoPackage.getTile calls, for comparison with the
implemented getTiles. -/
def seqGetTiles (s : TileTable) (now : Int) (tiles : List (Int × Int × Int)) :
    List (Int × Int × Int × Option Bytes) :=
  tiles.map (fun t => (t.1, t.2.1, t.2.2, getTile s now t.1 t.2.1 t.2.2))

/-- Modelled from the spec: the reference behaviour of a batch write as N
sequential GeoPackage.putTile calls, for comparison with putTiles. -/
def seqPutTiles (s : TileTable) (now : Int) :
    List (Int × Int × Int × Bytes) → TileTable
  | [] => s
  | t :: ts => seqPutTiles (putTile s now t.1 t.2.1 t.2.2.1 t.2.2.2) now ts

end GeoPackage

/-! ## GeoPackage store creation (schema level) -/

/-- The five tables of the default geopackage schema created by
GeoPackage.create, in creation order. -/
inductive GpkgTable : Type
  | contents
  | spatialRefSys
  | tileMatrixSet
  | tileMatrix
  | tiles
deriving DecidableEq, Repr

/-- Schema-level state of an sqlite database file: the application_id
pragma and which tables exist. Row contents of the metadata tables are
below the granularity the creation claims need and are not modelled. -/
structure SqliteDb : Type where
  appId : Int
  tables : List GpkgTable
deriving DecidableEq, Repr

/-- State of the file at the cache path. -/
inductive GpkgFile : Type
  /-- The path does not exist. -/
  | absent
  /-- The path exists but its contents are not an sqlite database:
  executing any statement raises sqlite3.DatabaseError. -/
  | notSqlite
  /-- The path holds an sqlite database. -/
  | sqlite (db : SqliteDb)
deriving DecidableEq, Repr

namespace GeoPackage

/-- The GeoPackage 1.0 application id magic written and checked by the
source (GP10 in ASCII). -/
def appMagic : Int := 1196437808

/-- The five schema tables in the order GeoPackage.create creates them. -/
def schemaTables : List GpkgTable :=
  [.contents, .spatialRefSys, .tileMatrixSet, .tileMatrix, .tiles]

/-- GeoPackage.isGPKG on an sqlite database: application_id must equal
the magic and the five schema tables must answer the probe SELECTs (a
missing table makes a probe raise, caught and reported as False). -/
def validGpkg (db : SqliteDb) : Bool :=
  decide (db.appId = appMagic ∧ ∀ t ∈ schemaTables, t ∈ db.tables)

/-- Table-creation phase of GeoPackage.create: CREATE TABLE statements
run in order and the first statement whose table already exists raises
sqlite3.OperationalError; tables created before the failure persist
(the source never wraps creation in an explicit transaction and sqlite
autocommits DDL). -/
def createTables (db : SqliteDb) : List GpkgTable → SqliteDb × Option PyErr
  | [] => (db, none)
  | t :: ts =>
    if db.tables.contains t then (db, some .operationalError)
    else createTables { db with tables := db.tables ++ [t] } ts

/-- GeoPackage.create on an sqlite database: first sets the
application_id pragma to the magic, then creates the five tables. -/
def create (db : SqliteDb) : SqliteDb × Option PyErr :=
  createTables { db with appId := appMagic } schemaTables

/-- Effect of GeoPackage.__init__ on the file at the cache path, paired
with the exception it raises if any. If isGPKG answers True the store is
reused untouched. isGPKG answers False for an absent path without
touching it and for a valid sqlite database lacking the magic or the
schema; for a file that is not a database the very first probe
(PRAGMA application_id) raises and __init__ propagates the exception.
When isGPKG answers False, create builds the schema in place: on an
absent path sqlite3.connect first creates a fresh empty database; on an
existing database the schema is added to whatever is already there. The
metadata inserts that follow a successful create act on the just-created
tables and stay below the modelled granularity. -/
def openStore : GpkgFile → GpkgFile × Option PyErr
  | .absent =>
    let r := create ⟨0, []⟩
    (.sqlite r.1, r.2)
  | .notSqlite => (.notSqlite, some .databaseError)
  | .sqlite db =>
    if validGpkg db then (.sqlite db, none)
    else
      let r := create db
      (.sqlite r.1, r.2)

end GeoPackage

/-! ## PIL image model -/

/-- Value of one pixel of the in-memory mosaic. Image.new with color None
leaves pixels uninitialised (unset); the two placeholder tiles are flat
lightgrey and pink fills; a pixel copied from a decoded tile is tracked
by the tile bytes and the source pixel position inside that tile. -/
inductive Pix : Type
  | unset
  | lightgrey
  | pink
  | fromTile (b : Bytes) (dx dy : Nat)
deriving DecidableEq, Repr

/-- A PIL image: size plus pixel contents (indexed from the top left;
positions outside the size are meaningless). -/
structure PImage : Type where
  w : Nat
  h : Nat
  px : Nat → Nat → Pix

/-- Image.new(mode, (w, h), c) with a flat color (or unset for None). -/
def PImage.new (w h : Nat) (c : Pix) : PImage := ⟨w, h, fun _ _ => c⟩

/-- Image.paste(src, (posx, posy)): overwrite the rectangle of src inside
dst, leaving other pixels; the mosaic code only pastes at non-negative
offsets inside the destination. -/
def PImage.paste (dst src : PImage) (posx posy : Int) : PImage :=
  ⟨dst.w, dst.h, fun x y =>
    if posx ≤ (x : Int) ∧ (x : Int) < posx + src.w ∧
       posy ≤ (y : Int) ∧ (y : Int) < posy + src.h then
      src.px ((x : Int) - posx).toNat ((y : Int) - posy).toNat
    else dst.px x y⟩

/-- The image decoded by Image.open from tile bytes, given its decoded
size: pixel (dx, dy) holds the corresponding tile pixel. -/
def tileImage (b : Bytes) (size : Nat × Nat) : PImage :=
  ⟨size.1, size.2, fun dx dy => .fromTile b dx dy⟩

/-! ## MapService -/

/-- State of a MapService instance relevant to tile resolution: the
source tile matrix, the optional destination tile matrix, and the value
of the instance attribute named zoom that the cache write-back of getTile
reads (none when the attribute was never assigned, which is the state
MapService.__init__ leaves: neither __init__ nor the source definition
dictionaries assign zoom, so reading self.zoom raises AttributeError). -/
structure MapSvc (α : Type*) : Type _ where
  srcTms : TileMatrix α
  dstTms : Option (TileMatrix α)
  selfZoom : Option Int

/-- External collaborators of MapService, supplied as oracles: the
imghdr.what sniffing predicate, the network response body per tile, the
reprojBbox collaborator (none when it raises, caught by getTile), the
outcome of the recursive getImage sub-mosaic (an abstract raster id), and
the reprojImg-then-PNG-encode step applied to that raster. kdd embeds the
constant GRS80.perimeter / 360 used by dd2meters and meters2dd, so the
grid arithmetic can stay in a generic ordered field. -/
structure SvcEnv (α : Type*) : Type _ where
  validImage : Bytes → Bool
  net : Int → Int → Int → Option Bytes
  reproj : α × α × α × α → Option (α × α × α × α)
  mosaicResult : Option Nat
  encodePng : Nat → Bytes
  kdd : α

/-- Externally visible effects of one MapService.getTile call, in
program order. -/
inductive Eff (α : Type*) : Type _
  /-- cache.getTile(col, row, zoom): a read of the cache database. -/
  | cacheRead (col row zoom : Int)
  /-- downloadTile(laykey, col, row, zoom): a network request. -/
  | download (col row zoom : Int)
  /-- the recursive self.getImage call of cross-grid synthesis, with the
  reprojected bbox and the arguments it receives. -/
  | mosaicReq (bbox : α × α × α × α) (zoom : Nat)
      (toDstGrid useCache : Bool) (nbThread : Nat) (cpt allowEmptyTile : Bool)
  /-- cache.putTile(col, row, z, data): a write to the cache database;
  z is the value read from the attribute self.zoom. -/
  | cacheWrite (col row z : Int) (data : Bytes)
deriving DecidableEq

namespace MapService

variable {α : Type*} [LinearOrderedField α]

/-- MapService.downloadTile: network fetch (transport errors give None),
then the imghdr sniff discards byte streams that are not a recognised
image format. -/
def downloadTile (env : SvcEnv α) (col row zoom : Int) : Option Bytes :=
  match env.net col row zoom with
  | none => none
  | some b => if env.validImage b then some b else none

/-- Tile matrix selection shared by getTile and getImage: the destination
matrix when toDstGrid is requested (ValueError when undefined), else the
source matrix. -/
def selectTm (svc : MapSvc α) (toDstGrid : Bool) : Option (TileMatrix α) :=
  if toDstGrid then svc.dstTms else some svc.srcTms

/-- Unit conversion of the destination resolution into source-grid units
in cross-grid synthesis (mapviewer.py lines 876-881): dd2meters when the
destination grid is in degrees and the source in meters, meters2dd in the
opposite case, identity otherwise; kdd is the linear conversion factor. -/
def convUnits (srcU dstU : UnitKind) (kdd res : α) : α :=
  if dstU = .degrees ∧ srcU = .meters then res * kdd
  else if srcU = .degrees ∧ dstU = .meters then res / kdd
  else res

/-- MapService.getTile: returns the tile bytes (or none) or the raised
exception, together with the trace of cache, network and recursive-mosaic
effects in program order. Follows mapviewer.py lines 829-912: tile matrix
selection, bounds check before any I/O, optional cache probe with
re-validation of the stored bytes, then either a network download (source
grid) or cross-grid synthesis (destination grid), and finally the cache
write-back, which reads the never-assigned attribute self.zoom. -/
def getTile (svc : MapSvc α) (env : SvcEnv α) (store : TileTable) (now : Int)
    (col row zoom : Int) (toDstGrid useCache : Bool) :
    Except PyErr (Option Bytes) × List (Eff α) :=
  match selectTm svc toDstGrid with
  | none => (.error .valueError, [])
  | some tm =>
    match tm.getTileCoords col row zoom with
    | none => (.error .indexError, [])
    | some (x, y) =>
      if row < 0 ∨ col < 0 then (.ok none, [])
      else if ¬(tm.xmin ≤ x ∧ x < tm.xmax) ∨ ¬(tm.ymin < y ∧ y ≤ tm.ymax) then
        (.ok none, [])
      else
        let cacheHit : Option Bytes :=
          if useCache then
            match GeoPackage.getTile store now col row zoom with
            | some d => if env.validImage d then some d else none
            | none => none
          else none
        let trace0 : List (Eff α) :=
          if useCache then [.cacheRead col row zoom] else []
        match cacheHit with
        | some d => (.ok (some d), trace0)
        | none =>
          let fetched : Except PyErr (Option Bytes) × List (Eff α) :=
            if ¬toDstGrid then
              (.ok (downloadTile env col row zoom),
               trace0 ++ [.download col row zoom])
            else
              match tm.getTileBbox col row zoom, tm.getRes zoom with
              | some bbox, some res =>
                let res2 := convUnits svc.srcTms.units tm.units env.kdd res
                match svc.srcTms.getNearestZoom res2 .closer with
                | none => (.error .typeError, trace0)
                | some zSel =>
                  match env.reproj bbox with
                  | none => (.ok none, trace0)
                  | some rb =>
                    let trace1 := trace0 ++
                      [.mosaicReq rb zSel false false 4 false false]
                    match env.mosaicResult with
                    | none => (.ok none, trace1)
                    | some rast => (.ok (some (env.encodePng rast)), trace1)
              | _, _ => (.error .indexError, trace0)
          match fetched with
          | (.ok (some d), tr) =>
            if useCache then
              match svc.selfZoom with
              | none => (.error .attributeError, tr)
              | some zAttr => (.ok (some d), tr ++ [.cacheWrite col row zAttr d])
            else (.ok (some d), tr)
          | other => other

end MapService

namespace MapService

variable {α : Type*} [LinearOrderedField α]

/-- The covering tile rectangle of a mosaic request: first tile indices
and the full column and row index lists. -/
structure MosaicPlan : Type where
  firstCol : Int
  firstRow : Int
  cols : List Int
  rows : List Int

/-- The requested keys not answered by the batch cache read: the source
collects the key triples of the returned rows into a set and keeps the
requested tiles not in it. -/
def missingOf (tiles : List (Int × Int × Int))
    (result : List (Int × Int × Int × Bytes)) : List (Int × Int × Int) :=
  tiles.filter (fun t => decide (t ∉ result.map (fun r => (r.1, r.2.1, r.2.2.1))))

/-- MapService.getTiles under the sequential semantics (running stays
true for the whole call, and worker completion order is the queue order;
the claims treated here do not depend on completion order because each
tile is pasted at its own offset). With useCache the cache is drained in
one batch call (whose empty-batch ValueError propagates), the missing
tiles are the requested ones whose key is not among the returned rows,
and the worker results for the missing tiles precede the cached rows in
the output, as in the source (tilesData.extend(result) at the end). The
per-tile outcome of the worker body, self.getTile(..., useCache=False),
is abstracted by the fetch oracle. The write-back of freshly fetched
tiles mutates the store but is not observed by the mosaic assembly, so
the store is treated as read-only here. -/
def getTilesSeq (store : TileTable) (useCache : Bool)
    (fetch : Int → Int → Int → Option Bytes) (tiles : List (Int × Int × Int)) :
    Except PyErr (List (Int × Int × Int × Option Bytes)) :=
  if useCache then
    match GeoPackage.getTiles store tiles with
    | none => .error .valueError
    | some result =>
      .ok (((missingOf tiles result).map
          (fun t => (t.1, t.2.1, t.2.2, fetch t.1 t.2.1 t.2.2))) ++
        result.map (fun r => (r.1, r.2.1, r.2.2.1, some r.2.2.2)))
  else
    .ok (tiles.map (fun t => (t.1, t.2.1, t.2.2, fetch t.1 t.2.1 t.2.2)))

/-- Mosaic assembly loop of MapService.getImage: paste each returned tile
at its own grid-relative offset; a tile with no data gets a flat
lightgrey placeholder and a tile whose bytes Image.open cannot decode
gets a flat pink placeholder when allowEmptyTile holds, otherwise the
whole mosaic is aborted (none). The decode oracle gives the decoded pixel
size of a byte stream, none when Image.open raises. -/
def assemble (T : Nat) (decode : Bytes → Option (Nat × Nat))
    (allowEmptyTile : Bool) (firstCol firstRow : Int) (img : PImage) :
    List (Int × Int × Int × Option Bytes) → Option PImage
  | [] => some img
  | (col, row, _z, odata) :: rest =>
    let posx : Int := (col - firstCol) * T
    let posy : Int := |row - firstRow| * T
    match odata with
    | none =>
      if allowEmptyTile then
        assemble T decode allowEmptyTile firstCol firstRow
          (img.paste (PImage.new T T .lightgrey) posx posy) rest
      else none
    | some b =>
      match decode b with
      | none =>
        if allowEmptyTile then
          assemble T decode allowEmptyTile firstCol firstRow
            (img.paste (PImage.new T T .pink) posx posy) rest
        else none
      | some sz =>
        assemble T decode allowEmptyTile firstCol firstRow
          (img.paste (tileImage b sz) posx posy) rest

/-- The covering tile rectangle computed by MapService.getImage (lines
1008-1028 of the source): first tile indices from the top-left of the
requested bbox, the corrected top-left coordinate, ceil tile counts to
cover the bbox, and the resulting column and row index lists (rows run
downward from firstRow for a NW origin and upward for SW); none models
an IndexError raised by getRes inside these computations. -/
def mosaicPlan [FloorRing α] (tm : TileMatrix α) (bbox : α × α × α × α)
    (zoom : Int) : Option MosaicPlan :=
  (tm.getRes zoom).bind fun res =>
    (tm.getTileNumber bbox.1 bbox.2.2.2 zoom).bind fun fcfr =>
      (tm.getTileCoords fcfr.1 fcfr.2 zoom).map fun xy0 =>
        let T := tm.tileSize
        let nbX : Int := ⌈(bbox.2.2.1 - xy0.1) / ((T : α) * res)⌉
        let nbY : Int := ⌈(xy0.2 - bbox.2.1) / ((T : α) * res)⌉
        { firstCol := fcfr.1
          firstRow := fcfr.2
          cols := (List.range nbX.toNat).map (fun (i : ℕ) => fcfr.1 + (i : Int))
          rows := (List.range nbY.toNat).map (fun (i : ℕ) =>
            match tm.originLoc with
            | .NW => fcfr.2 + (i : Int)
            | .SW => fcfr.2 - (i : Int)) }

/-- The requested tile keys of a mosaic: every column paired with every
row, columns outermost, as in the source list comprehension. -/
def planTiles (p : MosaicPlan) (zoom : Int) : List (Int × Int × Int) :=
  p.cols.flatMap (fun c => p.rows.map (fun r => (c, r, zoom)))

/-- MapService.getImage under the sequential semantics (running stays
true): compute the covering tile rectangle from the requested bbox,
request the tiles, and assemble the mosaic; ok none models the absent
result. The final optional outCRS warp is outside the mosaic claims and
the default outCRS=None path is the one modelled. The returned PImage is
the pixel raster of the GeoImage the source returns. -/
def getImage [FloorRing α] (svc : MapSvc α) (store : TileTable)
    (decode : Bytes → Option (Nat × Nat))
    (fetch : Int → Int → Int → Option Bytes) (bbox : α × α × α × α)
    (zoom : Int) (toDstGrid useCache allowEmptyTile : Bool) :
    Except PyErr (Option PImage) :=
  match selectTm svc toDstGrid with
  | none => .error .valueError
  | some tm =>
    match mosaicPlan tm bbox zoom with
    | none => .error .indexError
    | some p =>
      let T := tm.tileSize
      let img0 := PImage.new (p.cols.length * T) (p.rows.length * T) .unset
      match getTilesSeq store useCache fetch (planTiles p zoom) with
      | .error e => .error e
      | .ok td =>
        match assemble T decode allowEmptyTile p.firstCol p.firstRow img0 td with
        | none => .ok none
        | some m => .ok (some m)

end MapService

/-! ## Lemmas about the zoom scan and getRes -/

namespace TileMatrix

variable {α : Type*} [LinearOrderedField α]

/-- When neither of the two leading entries matches the target and the
pair does not bracket it, the scan moves one position right. -/
lemma nearestZoomGo_cons₂ (res : α) (rule : Rule) (v1 v2 : α) (rest : List α)
    (s : ℕ) (h1 : v1 ≠ res) (h2 : v2 ≠ res) (h3 : ¬(v1 > res ∧ res > v2)) :
    nearestZoomGo res rule (v1 :: v2 :: rest) s =
      nearestZoomGo res rule (v2 :: rest) (s + 1) := by
  simp [nearestZoomGo, h1, h2, h3]

/-- Exact-match behaviour of the scan: on a strictly descending list the
first (hence unique) entry equal to the target is returned, for every
rule. -/
lemma nearestZoomGo_exact (res : α) (rule : Rule) :
    ∀ (l : List α), l.Pairwise (· > ·) →
      ∀ (k : ℕ), l.get? k = some res →
        ∀ s, nearestZoomGo res rule l s = some (s + k) := by
  intro l
  induction l with
  | nil => intro _ k hk _; simp at hk
  | cons v1 t ih =>
    intro hp k hk s
    rcases List.pairwise_cons.mp hp with ⟨hv1, hpt⟩
    cases t with
    | nil =>
      cases k with
      | zero =>
        have h : v1 = res := by simpa using hk
        simp [nearestZoomGo, h]
      | succ k => simp at hk
    | cons v2 rest =>
      cases k with
      | zero =>
        have h : v1 = res := by simpa using hk
        simp [nearestZoomGo, h]
      | succ k =>
        have hkt : (v2 :: rest).get? k = some res := by simpa using hk
        have hmem : res ∈ v2 :: rest := List.get?_mem hkt
        have h1 : v1 ≠ res := ne_of_gt (hv1 _ hmem)
        cases k with
        | zero =>
          have h2 : v2 = res := by simpa using hkt
          simp [nearestZoomGo, h1, h2]
        | succ k =>
          have hkr : rest.get? k = some res := by simpa using hkt
          have h2gt : v2 > res :=
            (List.pairwise_cons.mp hpt).1 _ (List.get?_mem hkr)
          have h2 : v2 ≠ res := ne_of_gt h2gt
          have hnb : ¬(v1 > res ∧ res > v2) := fun h =>
            absurd h.2 (not_lt.mpr h2gt.le)
          rw [nearestZoomGo_cons₂ res rule v1 v2 rest s h1 h2 hnb,
            ih hpt (k + 1) hkt (s + 1)]
          congr 1
          omega

/-- Bracketing behaviour of the scan: when the target lies strictly
between adjacent entries of a strictly descending list, the scan stops at
that pair and resolves it by the rule; the closer rule compares the two
distances and on a tie (not d1 < d2) returns the second, finer index. -/
lemma nearestZoomGo_bracket (res : α) (rule : Rule) :
    ∀ (l : List α), l.Pairwise (· > ·) →
      ∀ (k : ℕ) (vk vk1 : α), l.get? k = some vk →
        l.get? (k + 1) = some vk1 → res < vk → vk1 < res →
        ∀ s, nearestZoomGo res rule l s =
          some (s + k +
            (if rule = .lower then 0
             else if rule = .higher then 1
             else if vk - res < res - vk1 then 0 else 1)) := by
  intro l
  induction l with
  | nil => intro _ k vk vk1 hk _ _ _ _; simp at hk
  | cons v1 t ih =>
    intro hp k vk vk1 hk hk1 hvk hvk1 s
    rcases List.pairwise_cons.mp hp with ⟨hv1, hpt⟩
    cases k with
    | zero =>
      have hv : v1 = vk := by simpa using hk
      subst hv
      have ht : t.get? 0 = some vk1 := by simpa using hk1
      cases t with
      | nil => simp at ht
      | cons v2 rest =>
        have hv2 : v2 = vk1 := by simpa using ht
        subst hv2
        have h1 : ¬ v1 = res := ne_of_gt hvk
        have h2 : ¬ v2 = res := ne_of_lt hvk1
        have hb : v1 > res ∧ res > v2 := ⟨hvk, hvk1⟩
        cases rule with
        | lower => simp [nearestZoomGo, h1, h2, hb]
        | higher => simp [nearestZoomGo, h1, h2, hb]
        | closer =>
          by_cases hc : v1 - res < res - v2 <;>
            simp [nearestZoomGo, h1, h2, hb, hc]
    | succ k =>
      have hkt : t.get? k = some vk := by simpa using hk
      have hk1t : t.get? (k + 1) = some vk1 := by simpa using hk1
      have h1gt : v1 > vk := hv1 _ (List.get?_mem hkt)
      have h1 : v1 ≠ res := ne_of_gt (hvk.trans h1gt)
      cases t with
      | nil => simp at hkt
      | cons v2 rest =>
        have h2ge : vk ≤ v2 := by
          cases k with
          | zero =>
            have : v2 = vk := by simpa using hkt
            exact this.ge
          | succ k =>
            have hr : rest.get? k = some vk := by simpa using hkt
            exact ((List.pairwise_cons.mp hpt).1 _ (List.get?_mem hr)).le
        have h2gt : res < v2 := lt_of_lt_of_le hvk h2ge
        have h2 : v2 ≠ res := ne_of_gt h2gt
        have hnb : ¬(v1 > res ∧ res > v2) := fun h =>
          absurd h.2 (not_lt.mpr h2gt.le)
        rw [nearestZoomGo_cons₂ res rule v1 v2 rest s h1 h2 hnb,
          ih hpt k vk vk1 hkt hk1t hvk hvk1 (s + 1)]
        congr 1
        omega

/-- When every entry of the (nonempty) list is strictly below the target
resolution, the scan falls through every check until the final position
and returns the last index, whatever the rule. -/
lemma nearestZoomGo_allBelow (res : α) (rule : Rule) :
    ∀ (l : List α), l ≠ [] → (∀ v ∈ l, v < res) →
      ∀ s, nearestZoomGo res rule l s = some (s + (l.length - 1)) := by
  intro l
  induction l with
  | nil => intro h; exact absurd rfl h
  | cons v1 t ih =>
    intro _ hall s
    cases t with
    | nil => simp [nearestZoomGo]
    | cons v2 rest =>
      have h1 : v1 ≠ res := ne_of_lt (hall _ (by simp))
      have h2 : v2 ≠ res := ne_of_lt (hall _ (by simp))
      have hnb : ¬(v1 > res ∧ res > v2) := fun h =>
        absurd h.1 (not_lt.mpr (hall _ (by simp)).le)
      rw [nearestZoomGo_cons₂ res rule v1 v2 rest s h1 h2 hnb,
        ih (by simp) (fun v hv => hall v (by simp [hv])) (s + 1)]
      congr 1
      simp
      omega

/-- getRes on an explicit list at an in-range index is the plain list
entry (the broken clamp branch is not taken). -/
lemma getRes_explicit_in_range (tm : TileMatrix α) (l : List α)
    (hdef : tm.resDef = .explicitList l) (z : ℕ) (hz : z < l.length) :
    tm.getRes (z : ℤ) = l.get? z := by
  have hc : ¬ ((z : ℤ) > (l.length : ℤ)) := by
    push_neg
    exact_mod_cast hz.le
  simp [getRes, hdef, getResExplicit, hc, pyGet, Int.toNat_ofNat]

/-- getRes succeeds at every in-range index, in both resolution modes. -/
lemma getRes_some_of_in_range (tm : TileMatrix α) (z : ℤ) (h0 : 0 ≤ z)
    (hz : z < (tm.nbLevels : ℤ)) : ∃ r, tm.getRes z = some r := by
  rcases hdef : tm.resDef with l | ⟨i, f, n⟩
  · have hlen : z < (l.length : ℤ) := by
      have : tm.nbLevels = l.length := by simp [nbLevels, hdef]
      omega
    have hc : ¬ (z > (l.length : ℤ)) := by omega
    have hlt : z.toNat < l.length := by omega
    refine ⟨l.get ⟨z.toNat, hlt⟩, ?_⟩
    simp [getRes, hdef, getResExplicit, hc, pyGet, h0, List.get?_eq_get hlt]
  · exact ⟨i / f ^ z, by simp [getRes, hdef]⟩

end TileMatrix

/-- Concrete explicit-list tile matrix over the rationals used by
witnesses and counterexamples. -/
def tmQ (l : List ℚ) : TileMatrix ℚ :=
  ⟨.explicitList l, 4, .NW, .meters, 0, 0, 4, 4⟩

/-- Claim C2: the spec says getRes clamps zoom indices beyond the
explicit list to the last entry; the code instead clamps zoom to
len(resolutions), an out-of-range index, and only when
zoom > len(resolutions), so every zoom greater than or equal to the list
length raises IndexError (modelled none) instead of returning the last
entry. -/
theorem claim_C2_getRes_oob_raises {α : Type*} [LinearOrderedField α]
    (tm : TileMatrix α) (l : List α) (hdef : tm.resDef = .explicitList l)
    (z : Int) (hz : (l.length : Int) ≤ z) : tm.getRes z = none := by
  have h0 : (0 : Int) ≤ (l.length : Int) := Int.natCast_nonneg _
  simp only [TileMatrix.getRes, hdef, TileMatrix.getResExplicit]
  by_cases hgt : z > (l.length : Int)
  · rw [if_pos hgt]
    simp [pyGet, List.get?_eq_none]
  · have hz' : z = (l.length : Int) := le_antisymm (not_lt.mp hgt) hz
    rw [if_neg hgt, hz']
    simp [pyGet, List.get?_eq_none]

/-- Witness for claim C2 at the concrete grid with resolutions [4, 2, 1]
and zoom 3. -/
theorem claim_C2_witness :
    ((([4, 2, 1] : List ℚ).length : Int) ≤ 3) ∧
      TileMatrix.getRes (tmQ [4, 2, 1]) 3 = none :=
  ⟨by norm_num,
   claim_C2_getRes_oob_raises (tmQ [4, 2, 1]) [4, 2, 1] rfl 3 (by norm_num)⟩

/-- Claim C4 (amended): on a strictly descending explicit resolution
list, getNearestZoom returns the exact index when the target equals a
list entry, for every rule, and getRes at that index returns that entry,
so the identity law nearestZoom(resolution(z), closer) = z holds; for a
target strictly between adjacent entries it returns the coarser index
under rule lower, the finer index under rule higher, and the numerically
closer index under rule closer, except that a distance tie breaks toward
the finer (second) index, not the coarser one as the claim states. -/
theorem claim_C4_nearestZoom_amended {α : Type*} [LinearOrderedField α]
    (tm : TileMatrix α) (l : List α) (hdef : tm.resDef = .explicitList l)
    (hsort : l.Pairwise (· > ·)) :
    (∀ (z : ℕ) (r : α), l.get? z = some r →
      (∀ rule, tm.getNearestZoom r rule = some z) ∧
        tm.getRes (z : Int) = some r) ∧
    (∀ (z : ℕ) (vk vk1 r : α), l.get? z = some vk →
      l.get? (z + 1) = some vk1 → r < vk → vk1 < r →
      tm.getNearestZoom r .lower = some z ∧
      tm.getNearestZoom r .higher = some (z + 1) ∧
      (vk - r < r - vk1 → tm.getNearestZoom r .closer = some z) ∧
      (r - vk1 ≤ vk - r → tm.getNearestZoom r .closer = some (z + 1))) := by
  have hlist : tm.getResList = l := by simp [TileMatrix.getResList, hdef]
  constructor
  · intro z r hz
    refine ⟨fun rule => ?_, ?_⟩
    · rw [TileMatrix.getNearestZoom, hlist]
      simpa using TileMatrix.nearestZoomGo_exact r rule l hsort z hz 0
    · have hlt : z < l.length := by
        rcases List.get?_eq_some.mp hz with ⟨h, _⟩
        exact h
      rw [TileMatrix.getRes_explicit_in_range tm l hdef z hlt, hz]
  · intro z vk vk1 r hk hk1 h1 h2
    have hb := fun rule =>
      TileMatrix.nearestZoomGo_bracket r rule l hsort z vk vk1 hk hk1 h1 h2 0
    refine ⟨?_, ?_, ?_, ?_⟩
    · rw [TileMatrix.getNearestZoom, hlist]
      simpa using hb .lower
    · rw [TileMatrix.getNearestZoom, hlist]
      simpa using hb .higher
    · intro hc
      rw [TileMatrix.getNearestZoom, hlist]
      simpa [hc] using hb .closer
    · intro hc
      rw [TileMatrix.getNearestZoom, hlist]
      simpa [not_lt.mpr hc] using hb .closer

/-- Counterexample to claim C4 as stated: on the grid with resolutions
[4, 2] the target 3 is at equal distance 1 from both entries, and
getNearestZoom under rule closer returns index 1 (the finer), not the
coarser index 0 the claim requires for ties. -/
theorem claim_C4_tie_counterexample :
    (4 : ℚ) - 3 = 3 - 2 ∧
    TileMatrix.getNearestZoom (tmQ [4, 2]) (3 : ℚ) .closer = some 1 ∧
    TileMatrix.getNearestZoom (tmQ [4, 2]) (3 : ℚ) .closer ≠ some 0 := by
  have h : TileMatrix.getNearestZoom (tmQ [4, 2]) (3 : ℚ) .closer = some 1 := by
    norm_num [TileMatrix.getNearestZoom, TileMatrix.getResList, tmQ,
      TileMatrix.nearestZoomGo]
  exact ⟨by norm_num, h, by rw [h]; simp⟩

/-- Witness for claim C4 on the grid with resolutions [4, 1]: exact-match
identity at index 0, and bracketing of the target 2 (closer to 1 than to
4, hence the finer index under rule closer). -/
theorem claim_C4_witness :
    TileMatrix.getNearestZoom (tmQ [4, 1]) (4 : ℚ) .closer = some 0 ∧
    TileMatrix.getRes (tmQ [4, 1]) 0 = some 4 ∧
    TileMatrix.getNearestZoom (tmQ [4, 1]) (2 : ℚ) .lower = some 0 ∧
    TileMatrix.getNearestZoom (tmQ [4, 1]) (2 : ℚ) .higher = some 1 ∧
    TileMatrix.getNearestZoom (tmQ [4, 1]) (2 : ℚ) .closer = some 1 := by
  have h := claim_C4_nearestZoom_amended (tmQ [4, 1]) [4, 1] rfl
    (by norm_num [List.pairwise_cons])
  have he := h.1 0 4 rfl
  have hbr := h.2 0 4 1 2 rfl rfl (by norm_num) (by norm_num)
  exact ⟨he.1 .closer, he.2, hbr.1, hbr.2.1, hbr.2.2.2 (by norm_num)⟩

/-- Claim C5 (amended): with both zoom indices inside [0, levels-1],
getFromToResFac returns the resolution quotient getRes(z2)/getRes(z1)
only in the strict interior (z2 below levels-1 when moving up, z2 above 0
when moving down); it returns 1 when z1 = z2 and also at the in-range
boundary itself: z2 = levels-1 moving up, z2 = 0 moving down, where the
claim demanded the quotient. -/
theorem claim_C5_resFac_amended {α : Type*} [LinearOrderedField α]
    (tm : TileMatrix α) (z1 z2 : Int)
    (h10 : 0 ≤ z1) (h1L : z1 < (tm.nbLevels : Int))
    (h20 : 0 ≤ z2) (h2L : z2 < (tm.nbLevels : Int)) :
    (z1 = z2 → tm.getFromToResFac z1 z2 = some 1) ∧
    (z1 < z2 → z2 = (tm.nbLevels : Int) - 1 →
      tm.getFromToResFac z1 z2 = some 1) ∧
    (z2 < z1 → z2 = 0 → tm.getFromToResFac z1 z2 = some 1) ∧
    (z1 < z2 → z2 < (tm.nbLevels : Int) - 1 →
      ∀ r1 r2, tm.getRes z1 = some r1 → tm.getRes z2 = some r2 →
        tm.getFromToResFac z1 z2 = some (r2 / r1)) ∧
    (z2 < z1 → 0 < z2 →
      ∀ r1 r2, tm.getRes z1 = some r1 → tm.getRes z2 = some r2 →
        tm.getFromToResFac z1 z2 = some (r2 / r1)) := by
  refine ⟨fun h => ?_, fun hlt hbd => ?_, fun hgt hbd => ?_,
    fun hlt hbd r1 r2 hr1 hr2 => ?_, fun hgt hbd r1 r2 hr1 hr2 => ?_⟩
  · simp [TileMatrix.getFromToResFac, h]
  · rw [TileMatrix.getFromToResFac, if_neg (by omega), if_pos hlt,
      if_pos (by omega)]
  · rw [TileMatrix.getFromToResFac, if_neg (by omega), if_neg (by omega),
      if_pos (by omega)]
  · rw [TileMatrix.getFromToResFac, if_neg (by omega), if_pos hlt,
      if_neg (by omega), hr2, hr1]
    rfl
  · rw [TileMatrix.getFromToResFac, if_neg (by omega), if_neg (by omega),
      if_neg (by omega), hr2, hr1]
    rfl

/-- Counterexample to claim C5 as stated: on the grid with resolutions
[4, 2, 1] both indices 0 and 2 are inside [0, levels-1], yet
getFromToResFac(0, 2) returns 1 instead of the resolution quotient
1 / 4. -/
theorem claim_C5_boundary_counterexample :
    TileMatrix.getFromToResFac (tmQ [4, 2, 1]) 0 2 = some 1 ∧
    TileMatrix.getRes (tmQ [4, 2, 1]) 2 = some 1 ∧
    TileMatrix.getRes (tmQ [4, 2, 1]) 0 = some 4 ∧
    ((1 : ℚ) / 4 ≠ 1) ∧
    (0 : Int) ≤ 0 ∧ (0 : Int) < ((tmQ [4, 2, 1]).nbLevels : Int) ∧
    (0 : Int) ≤ 2 ∧ (2 : Int) < ((tmQ [4, 2, 1]).nbLevels : Int) := by
  refine ⟨?_, rfl, rfl, by norm_num, by norm_num, ?_, by norm_num, ?_⟩
  · norm_num [TileMatrix.getFromToResFac, TileMatrix.nbLevels, tmQ]
  · norm_num [TileMatrix.nbLevels, tmQ]
  · norm_num [TileMatrix.nbLevels, tmQ]

/-- Witness for claim C5 on the grid with resolutions [4, 2, 1]: equal
indices give 1, the interior pair (0, 1) gives the quotient 2 / 4, and
the boundary pair (0, 2) gives 1. -/
theorem claim_C5_witness :
    TileMatrix.getFromToResFac (tmQ [4, 2, 1]) 1 1 = some 1 ∧
    TileMatrix.getFromToResFac (tmQ [4, 2, 1]) 0 1 = some ((2 : ℚ) / 4) ∧
    TileMatrix.getFromToResFac (tmQ [4, 2, 1]) 0 2 = some 1 := by
  have h11 := claim_C5_resFac_amended (tmQ [4, 2, 1]) 1 1
    (by norm_num) (by norm_num [TileMatrix.nbLevels, tmQ])
    (by norm_num) (by norm_num [TileMatrix.nbLevels, tmQ])
  have h01 := claim_C5_resFac_amended (tmQ [4, 2, 1]) 0 1
    (by norm_num) (by norm_num [TileMatrix.nbLevels, tmQ])
    (by norm_num) (by norm_num [TileMatrix.nbLevels, tmQ])
  have h02 := claim_C5_resFac_amended (tmQ [4, 2, 1]) 0 2
    (by norm_num) (by norm_num [TileMatrix.nbLevels, tmQ])
    (by norm_num) (by norm_num [TileMatrix.nbLevels, tmQ])
  refine ⟨h11.1 rfl, ?_, ?_⟩
  · refine h01.2.2.2.1 (by norm_num)
      (by norm_num [TileMatrix.nbLevels, tmQ]) 4 2 ?_ ?_ <;>
      norm_num [TileMatrix.getRes, TileMatrix.getResExplicit, tmQ, pyGet]
  · exact h02.2.1 (by norm_num) (by norm_num [TileMatrix.nbLevels, tmQ])

/-- Claim C10: on an explicit resolution list with at least two entries,
sorted descending, a target resolution strictly coarser than the first
entry makes getNearestZoom fall through every check of the scan and
return the last (finest) index, for every rule, rather than the coarsest
index 0. -/
theorem claim_C10_coarserThanFirst {α : Type*} [LinearOrderedField α]
    (tm : TileMatrix α) (l : List α) (hdef : tm.resDef = .explicitList l)
    (hsort : l.Pairwise (· ≥ ·)) (hlen : 2 ≤ l.length)
    (v0 : α) (h0 : l.get? 0 = some v0) (res : α) (hres : v0 < res) :
    (∀ rule, tm.getNearestZoom res rule = some (l.length - 1)) ∧
      l.length - 1 ≠ 0 := by
  have hlist : tm.getResList = l := by simp [TileMatrix.getResList, hdef]
  have hne : l ≠ [] := by
    cases l with
    | nil => simp at h0
    | cons a t => simp
  have hall : ∀ v ∈ l, v < res := by
    cases l with
    | nil => simp at h0
    | cons a t =>
      have hav : a = v0 := by simpa using h0
      subst hav
      intro v hv
      rcases List.mem_cons.mp hv with rfl | hvt
      · exact hres
      · exact lt_of_le_of_lt ((List.pairwise_cons.mp hsort).1 v hvt) hres
  refine ⟨fun rule => ?_, by omega⟩
  rw [TileMatrix.getNearestZoom, hlist]
  simpa using TileMatrix.nearestZoomGo_allBelow res rule l hne hall 0

/-- Witness for claim C10 on the grid with resolutions [4, 2] and the
coarser-than-everything target 5. -/
theorem claim_C10_witness :
    TileMatrix.getNearestZoom (tmQ [4, 2]) (5 : ℚ) .closer = some 1 ∧
    TileMatrix.getNearestZoom (tmQ [4, 2]) (5 : ℚ) .lower = some 1 ∧
    TileMatrix.getNearestZoom (tmQ [4, 2]) (5 : ℚ) .higher = some 1 ∧
    (1 : ℕ) ≠ 0 := by
  have h := claim_C10_coarserThanFirst (tmQ [4, 2]) [4, 2] rfl
    (by norm_num [List.pairwise_cons]) (by norm_num) 4 rfl 5 (by norm_num)
  exact ⟨h.1 .closer, h.1 .lower, h.1 .higher, h.2⟩

/-! ## Claim C3: batch store calls versus sequential single calls -/

/-- A batch write is exactly the left-to-right sequence of single
writes: executemany runs the same statement once per entry, in order. -/
lemma putTiles_eq_seqPutTiles :
    ∀ (tiles : List (Int × Int × Int × Bytes)) (s : TileTable) (now : Int),
      GeoPackage.putTiles s now tiles = GeoPackage.seqPutTiles s now tiles := by
  intro tiles
  induction tiles with
  | nil => intro s now; rfl
  | cons t ts ih =>
    intro s now
    show GeoPackage.putTiles _ _ _ = _
    rw [GeoPackage.putTiles, List.foldl_cons]
    exact ih _ now

/-- Claim C3 (amended): putTiles on any batch leaves the store exactly as
the same number of sequential putTile calls; getTiles on an empty batch
raises ValueError (none) instead of returning the empty result; getTiles
on a nonempty batch is a superset of the sequential reads, every tile a
sequential getTile would return (present and unexpired) does appear in
the batch output with the same data, but the batch output is only
constrained to rows whose column, row and zoom each occur somewhere among
the requested keys (the cross-membership IN filter), with no max-age
filtering. -/
theorem claim_C3_batch_amended (s : TileTable) (now : Int) :
    (∀ tiles, GeoPackage.putTiles s now tiles =
      GeoPackage.seqPutTiles s now tiles) ∧
    (GeoPackage.getTiles s ([] : List (Int × Int × Int)) = none) ∧
    (∀ tiles (x y z : Int) (d : Bytes), (x, y, z) ∈ tiles →
      GeoPackage.getTile s now x y z = some d →
      ∃ out, GeoPackage.getTiles s tiles = some out ∧ (x, y, z, d) ∈ out) ∧
    (∀ tiles out, GeoPackage.getTiles s tiles = some out →
      ∀ q ∈ out, (∃ t ∈ tiles, q.1 = t.1) ∧ (∃ t ∈ tiles, q.2.1 = t.2.1) ∧
        (∃ t ∈ tiles, q.2.2.1 = t.2.2)) := by
  refine ⟨fun tiles => putTiles_eq_seqPutTiles tiles s now, rfl, ?_, ?_⟩
  · intro tiles x y z d hmem hget
    rcases hfind : s.find? (GeoPackage.keyMatch z x y) with _ | r
    · simp [GeoPackage.getTile, hfind] at hget
    have hget' :
        (if now - r.lastMod > GeoPackage.MAX_DAYS then none
          else some r.data) = some d := by
      simpa [GeoPackage.getTile, hfind] using hget
    have hdata : r.data = d := by
      by_cases hexp : now - r.lastMod > GeoPackage.MAX_DAYS
      · rw [if_pos hexp] at hget'; exact absurd hget' (by simp)
      · rw [if_neg hexp] at hget'; exact Option.some_injective _ hget'
    have hkey := List.find?_some hfind
    rw [GeoPackage.keyMatch, decide_eq_true_eq] at hkey
    obtain ⟨hz, hx, hy⟩ := hkey
    have hrs : r ∈ s := List.mem_of_find?_eq_some hfind
    rcases tiles with _ | ⟨t0, ts⟩
    · simp at hmem
    refine ⟨_, rfl, ?_⟩
    simp only [GeoPackage.getTilesHits, List.mem_map, List.mem_filter]
    refine ⟨r, ⟨hrs, ?_⟩, by rw [hx, hy, hz, hdata]⟩
    rw [decide_eq_true_eq]
    exact ⟨⟨(x, y, z), hmem, by simp [hx]⟩, ⟨(x, y, z), hmem, by simp [hy]⟩,
      ⟨(x, y, z), hmem, by simp [hz]⟩⟩
  · intro tiles out hout q hq
    rcases tiles with _ | ⟨t0, ts⟩
    · exact absurd hout (by simp [GeoPackage.getTiles])
    simp only [GeoPackage.getTiles, Option.some_inj] at hout
    subst hout
    simp only [GeoPackage.getTilesHits, List.mem_map, List.mem_filter,
      decide_eq_true_eq] at hq
    obtain ⟨r, ⟨-, hcx, hcy, hcz⟩, hqr⟩ := hq
    subst hqr
    refine ⟨?_, ?_, ?_⟩
    · obtain ⟨t, ht, he⟩ := hcx
      exact ⟨t, ht, he.symm⟩
    · obtain ⟨t, ht, he⟩ := hcy
      exact ⟨t, ht, he.symm⟩
    · obtain ⟨t, ht, he⟩ := hcz
      exact ⟨t, ht, he.symm⟩

/-- The one-row store used by the claim C3 counterexample and witness:
a tile written at day 0. -/
def storeC3 : TileTable := [⟨1, 2, 5, 7, 0⟩]

/-- Counterexample to claim C3 as stated: at day 100 the single stored
tile is expired, so one sequential getTile call reports it absent, but
the batch getTiles on the same single key still returns the row; the
batch read does not apply the max-age expiry treatment. -/
theorem claim_C3_expiry_counterexample :
    GeoPackage.getTile storeC3 100 1 2 5 = none ∧
    GeoPackage.getTiles storeC3 [(1, 2, 5)] = some [(1, 2, 5, 7)] ∧
    GeoPackage.seqGetTiles storeC3 100 [(1, 2, 5)] = [(1, 2, 5, none)] := by
  refine ⟨?_, ?_, ?_⟩ <;> rfl

/-- Witness for claim C3: the amended statement applied at day 50 to the
concrete store, exercising the batch write equivalence, the empty-batch
error, and the batch-contains-sequential-hit direction. -/
theorem claim_C3_witness :
    GeoPackage.putTiles storeC3 50 [(3, 4, 5, 9)] =
      GeoPackage.seqPutTiles storeC3 50 [(3, 4, 5, 9)] ∧
    GeoPackage.getTiles storeC3 ([] : List (Int × Int × Int)) = none ∧
    (∃ out, GeoPackage.getTiles storeC3 [(1, 2, 5)] = some out ∧
      (1, 2, 5, (7 : Bytes)) ∈ out) := by
  have h := claim_C3_batch_amended storeC3 50
  exact ⟨h.1 _, h.2.1, h.2.2.1 [(1, 2, 5)] 1 2 5 7 (by simp) rfl⟩

/-! ## Claim C7: store creation at an existing path -/

/-- Claim C7 (amended): opening a path that already holds a schema-valid
store reuses it without modifying it; opening a path whose contents are
not an sqlite database at all raises from the validity probe without
altering the file; but a path holding an sqlite database that is not a
recognizable store is not refused: the store schema is silently installed
into the existing database, altering it without any error. -/
theorem claim_C7_openStore_amended :
    (∀ db : SqliteDb, GeoPackage.validGpkg db = true →
      GeoPackage.openStore (.sqlite db) = (.sqlite db, none)) ∧
    (GeoPackage.openStore .notSqlite = (.notSqlite, some .databaseError)) ∧
    (∀ db : SqliteDb, (∀ t ∈ GeoPackage.schemaTables, t ∉ db.tables) →
      GeoPackage.openStore (.sqlite db) =
        (.sqlite ⟨GeoPackage.appMagic, db.tables ++ GeoPackage.schemaTables⟩,
          none)) := by
  refine ⟨fun db hv => ?_, rfl, fun db hnone => ?_⟩
  · simp [GeoPackage.openStore, hv]
  · have h1 := hnone .contents (by simp [GeoPackage.schemaTables])
    have h2 := hnone .spatialRefSys (by simp [GeoPackage.schemaTables])
    have h3 := hnone .tileMatrixSet (by simp [GeoPackage.schemaTables])
    have h4 := hnone .tileMatrix (by simp [GeoPackage.schemaTables])
    have h5 := hnone .tiles (by simp [GeoPackage.schemaTables])
    have hv : GeoPackage.validGpkg db = false := by
      simp only [GeoPackage.validGpkg, decide_eq_false_iff_not]
      intro hcl
      exact h1 (hcl.2 .contents (by simp [GeoPackage.schemaTables]))
    rw [GeoPackage.openStore, if_neg (by simp [hv])]
    simp only [GeoPackage.create, GeoPackage.schemaTables,
      GeoPackage.createTables]
    simp [h1, h2, h3, h4, h5]

/-- Witness for claim C7: a valid store is reused untouched, a
non-database file raises without being altered, and an unrelated empty
sqlite database is silently converted into a store. -/
theorem claim_C7_witness :
    GeoPackage.openStore
        (.sqlite ⟨GeoPackage.appMagic, GeoPackage.schemaTables⟩) =
      (.sqlite ⟨GeoPackage.appMagic, GeoPackage.schemaTables⟩, none) ∧
    GeoPackage.openStore .notSqlite = (.notSqlite, some .databaseError) ∧
    GeoPackage.openStore (.sqlite ⟨0, []⟩) =
      (.sqlite ⟨GeoPackage.appMagic, [] ++ GeoPackage.schemaTables⟩, none) := by
  have h := claim_C7_openStore_amended
  exact ⟨h.1 _ (by rfl), h.2.1, h.2.2 ⟨0, []⟩ (by simp)⟩

/-- The counterexample for claim C7: the path holds an empty sqlite
database, not a recognizable store, yet opening it signals no error and
rewrites the file into a store (application id and five tables added):
the code neither refuses nor leaves the existing contents unmodified. -/
theorem claim_C7_silent_alteration_counterexample :
    GeoPackage.openStore (.sqlite ⟨0, []⟩) =
      (.sqlite ⟨GeoPackage.appMagic, GeoPackage.schemaTables⟩, none) ∧
    GpkgFile.sqlite ⟨0, []⟩ ≠
      GpkgFile.sqlite ⟨GeoPackage.appMagic, GeoPackage.schemaTables⟩ := by
  exact ⟨rfl, by simp [GeoPackage.appMagic]⟩

/-! ## Claims C1, C6, C9: MapService.getTile -/

/-- Claim C1: the spec says a source-grid cache miss whose download
sniffs as a valid image is written through to the store under
(zoom, col, row) and returned without raising; the code instead passes
self.zoom to cache.putTile, an attribute MapService never assigns, so
the call raises AttributeError after the download and performs no cache
write at all. -/
theorem claim_C1_writeback_attribute_error {α : Type*} [LinearOrderedField α]
    (svc : MapSvc α) (env : SvcEnv α) (store : TileTable) (now : Int)
    (col row zoom : Int) (x y : α) (b : Bytes)
    (hzattr : svc.selfZoom = none)
    (hxy : svc.srcTms.getTileCoords col row zoom = some (x, y))
    (hneg : ¬(row < 0 ∨ col < 0))
    (hin : (svc.srcTms.xmin ≤ x ∧ x < svc.srcTms.xmax) ∧
      (svc.srcTms.ymin < y ∧ y ≤ svc.srcTms.ymax))
    (hmiss : GeoPackage.getTile store now col row zoom = none)
    (hnet : env.net col row zoom = some b)
    (hvalid : env.validImage b = true) :
    MapService.getTile svc env store now col row zoom false true =
      (.error .attributeError,
        [.cacheRead col row zoom, .download col row zoom]) := by
  simp [MapService.getTile, MapService.selectTm, MapService.downloadTile,
    hxy, hmiss, hnet, hvalid, hzattr, hneg, hin.1.1, hin.1.2, hin.2.1,
    hin.2.2]

/-- The grid, service and environment used by the rational-valued
witnesses and counterexamples for getTile: a one-level grid over
[0, 4] x [0, 4] with 4-pixel tiles of resolution 1, no destination grid,
no assigned zoom attribute, a network that always fails, and an
always-true image sniff. -/
def svcC6 : MapSvc ℚ := ⟨tmQ [1], none, none⟩

/-- Oracle environment with no network and trivial collaborators. -/
def envQ : SvcEnv ℚ :=
  ⟨fun _ => true, fun _ _ _ => none, fun _ => none, none, fun _ => 0, 0⟩

/-- Oracle environment whose network returns the byte token 7 for every
tile. -/
def envQnet : SvcEnv ℚ :=
  ⟨fun _ => true, fun _ _ _ => some 7, fun _ => none, none, fun _ => 0, 0⟩

/-- Witness for claim C1: on the concrete grid, tile (0, 0) at zoom 0 is
in bounds, the empty cache misses, the network returns valid bytes, and
getTile raises AttributeError with only a cache read and a download in
its trace. -/
theorem claim_C1_witness :
    MapService.getTile svcC6 envQnet [] 0 0 0 0 false true =
      (.error .attributeError, [.cacheRead 0 0 0, .download 0 0 0]) := by
  refine claim_C1_writeback_attribute_error svcC6 envQnet [] 0 0 0 0 0 4 7
    rfl ?_ (by norm_num) ?_ rfl rfl rfl
  · show TileMatrix.getTileCoords (tmQ [1]) 0 0 0 = some (0, 4)
    norm_num [TileMatrix.getTileCoords, TileMatrix.getRes,
      TileMatrix.getResExplicit, tmQ, pyGet, TileMatrix.originx,
      TileMatrix.originy]
  · show ((0 : ℚ) ≤ 0 ∧ (0 : ℚ) < 4) ∧ ((0 : ℚ) < 4 ∧ (4 : ℚ) ≤ 4)
    norm_num

/-- Claim C6 (amended): a tile request with negative column or row, or
whose computed top-left falls outside [xmin, xmax) x (ymin, ymax] -
including a top-left exactly on the right boundary (x = xmax) or on the
lower boundary (y = ymin), but not the upper boundary y = ymax, which the
half-open extent accepts - returns absent with an empty effect trace: no
cache read, no cache write, no network call. -/
theorem claim_C6_bounds_amended {α : Type*} [LinearOrderedField α]
    (svc : MapSvc α) (env : SvcEnv α) (store : TileTable) (now : Int)
    (col row zoom : Int) (toDstGrid useCache : Bool) (tm : TileMatrix α)
    (hsel : MapService.selectTm svc toDstGrid = some tm)
    (x y : α) (hxy : tm.getTileCoords col row zoom = some (x, y))
    (hrej : col < 0 ∨ row < 0 ∨ x < tm.xmin ∨ tm.xmax ≤ x ∨
      y ≤ tm.ymin ∨ tm.ymax < y) :
    MapService.getTile svc env store now col row zoom toDstGrid useCache =
      (.ok none, []) := by
  simp only [MapService.getTile, hsel, hxy]
  by_cases hneg : row < 0 ∨ col < 0
  · rw [if_pos hneg]
  · rw [if_neg hneg]
    have hout : ¬(tm.xmin ≤ x ∧ x < tm.xmax) ∨ ¬(tm.ymin < y ∧ y ≤ tm.ymax) := by
      rcases hrej with h | h | h | h | h | h
      · exact absurd (Or.inr h) hneg
      · exact absurd (Or.inl h) hneg
      · exact Or.inl (fun hc => absurd hc.1 (not_le.mpr h))
      · exact Or.inl (fun hc => absurd hc.2 (not_lt.mpr h))
      · exact Or.inr (fun hc => absurd hc.1 (not_lt.mpr h))
      · exact Or.inr (fun hc => absurd hc.2 (not_le.mpr h))
    rw [if_pos hout]

/-- Witness for claim C6: tile (1, 0) of the concrete grid has top-left
x = 4 = xmax, exactly on the right boundary, and getTile rejects it with
an empty trace; tile (0, 1) has top-left y = 0 = ymin, exactly on the
lower boundary, and is likewise rejected. -/
theorem claim_C6_witness :
    MapService.getTile svcC6 envQnet [] 0 1 0 0 false true = (.ok none, []) ∧
    MapService.getTile svcC6 envQnet [] 0 0 1 0 false true = (.ok none, []) := by
  constructor
  · refine claim_C6_bounds_amended svcC6 envQnet [] 0 1 0 0 false true
      (tmQ [1]) rfl 4 4 ?_ ?_
    · norm_num [TileMatrix.getTileCoords, TileMatrix.getRes,
        TileMatrix.getResExplicit, tmQ, pyGet, TileMatrix.originx,
        TileMatrix.originy]
    · refine Or.inr (Or.inr (Or.inr (Or.inl ?_)))
      show (tmQ [1]).xmax ≤ 4
      norm_num [tmQ]
  · refine claim_C6_bounds_amended svcC6 envQnet [] 0 0 1 0 false true
      (tmQ [1]) rfl 0 0 ?_ ?_
    · norm_num [TileMatrix.getTileCoords, TileMatrix.getRes,
        TileMatrix.getResExplicit, tmQ, pyGet, TileMatrix.originx,
        TileMatrix.originy]
    · refine Or.inr (Or.inr (Or.inr (Or.inr (Or.inl ?_))))
      show (0 : ℚ) ≤ (tmQ [1]).ymin
      norm_num [tmQ]

/-- Counterexample to claim C6 as stated: tile (0, 0) of the concrete
grid has its top-left exactly on the upper boundary y = ymax, which the
claim places outside the accepted extent, yet getTile does not return
early: it performs a cache read and a network download (nonempty effect
trace). -/
theorem claim_C6_upper_boundary_counterexample :
    TileMatrix.getTileCoords (tmQ [1]) 0 0 0 = some (0, (tmQ [1]).ymax) ∧
    (MapService.getTile svcC6 envQ [] 0 0 0 0 false true).2 =
      [.cacheRead 0 0 0, .download 0 0 0] := by
  constructor
  · norm_num [TileMatrix.getTileCoords, TileMatrix.getRes,
      TileMatrix.getResExplicit, tmQ, pyGet, TileMatrix.originx,
      TileMatrix.originy]
  · norm_num [MapService.getTile, MapService.selectTm,
      MapService.downloadTile, svcC6, envQ, tmQ, TileMatrix.getTileCoords,
      TileMatrix.getRes, TileMatrix.getResExplicit, pyGet,
      TileMatrix.originx, TileMatrix.originy, GeoPackage.getTile]

/-- Claim C9: on a destination-grid cache miss, cross-grid synthesis
converts the destination resolution to source units with the fixed
linear approximation of dd2meters (one degree equals the equatorial
perimeter 2 pi 6378137 over 360), picks the source zoom with
getNearestZoom under the default rule closer, and issues the recursive
mosaic request with toDstGrid false, useCache false, nbThread 4, cpt
false and allowEmptyTile false. -/
theorem claim_C9_crossgrid_request (svc : MapSvc ℝ) (env : SvcEnv ℝ)
    (store : TileTable) (now : Int) (col row zoom : Int)
    (dtm : TileMatrix ℝ) (hdst : svc.dstTms = some dtm)
    (hkdd : env.kdd = GRS80.perimeter / 360)
    (hsrcU : svc.srcTms.units = .meters) (hdstU : dtm.units = .degrees)
    (x y : ℝ) (hxy : dtm.getTileCoords col row zoom = some (x, y))
    (hneg : ¬(row < 0 ∨ col < 0))
    (hin : (dtm.xmin ≤ x ∧ x < dtm.xmax) ∧ (dtm.ymin < y ∧ y ≤ dtm.ymax))
    (hmiss : GeoPackage.getTile store now col row zoom = none)
    (res : ℝ) (hres : dtm.getRes zoom = some res)
    (bb : ℝ × ℝ × ℝ × ℝ) (hbbox : dtm.getTileBbox col row zoom = some bb)
    (zSel : ℕ)
    (hz : svc.srcTms.getNearestZoom (dd2meters res) .closer = some zSel)
    (rb : ℝ × ℝ × ℝ × ℝ) (hrb : env.reproj bb = some rb) :
    ((MapService.getTile svc env store now col row zoom true true).2).take 2 =
      [.cacheRead col row zoom,
        .mosaicReq rb zSel false false 4 false false] ∧
    (∀ d : ℝ, dd2meters d = d * (2 * Real.pi * 6378137 / 360)) ∧
    (∀ d : ℝ, meters2dd d = d / (2 * Real.pi * 6378137 / 360)) ∧
    MapService.convUnits svc.srcTms.units dtm.units env.kdd res =
      dd2meters res := by
  have hconv : MapService.convUnits svc.srcTms.units dtm.units env.kdd res =
      dd2meters res := by
    rw [MapService.convUnits, hsrcU, hdstU, hkdd]
    simp [dd2meters]
  refine ⟨?_, fun d => by rw [dd2meters, GRS80, Ellps.perimeter],
    fun d => by rw [meters2dd, GRS80, Ellps.perimeter], hconv⟩
  have hz' : svc.srcTms.getNearestZoom
      (MapService.convUnits svc.srcTms.units dtm.units env.kdd res) .closer =
      some zSel := by rw [hconv]; exact hz
  simp [MapService.getTile, MapService.selectTm, hdst, hxy, hmiss, hres,
    hbbox, hneg, hin.1.1, hin.1.2, hin.2.1, hin.2.2, hz', hrb]
  rcases env.mosaicResult with _ | rast
  · simp
  · simp
    rcases svc.selfZoom with _ | zAttr
    · simp
    · simp

/-- Source grid (meters) of the real-valued cross-grid witness. -/
noncomputable def srcW : TileMatrix ℝ :=
  ⟨.explicitList [1], 4, .NW, .meters, 0, 0, 4, 4⟩

/-- Destination grid (degrees) of the real-valued cross-grid witness. -/
noncomputable def dstW : TileMatrix ℝ :=
  ⟨.explicitList [1], 4, .NW, .degrees, 0, 0, 4, 4⟩

/-- Service with distinct source and destination grids and no assigned
zoom attribute. -/
noncomputable def svcW : MapSvc ℝ := ⟨srcW, some dstW, none⟩

/-- Oracle environment for the cross-grid witness: no cache hits are
possible (the store will be empty), the reprojection is the identity,
and kdd is the dd2meters factor. -/
noncomputable def envW : SvcEnv ℝ :=
  ⟨fun _ => true, fun _ _ _ => none, fun bb => some bb, none, fun _ => 0,
    GRS80.perimeter / 360⟩

/-- Witness for claim C9: the concrete destination-grid request for tile
(0, 0) at zoom 0 misses the empty cache and traces a recursive mosaic
request at the closer-rule source zoom with useCache and allowEmptyTile
both false. -/
theorem claim_C9_witness :
    ((MapService.getTile svcW envW [] 0 0 0 0 true true).2).take 2 =
      [.cacheRead 0 0 0,
        .mosaicReq ((0 : ℝ), (0 : ℝ), (4 : ℝ), (4 : ℝ)) 0 false false 4
          false false] ∧
    dd2meters 1 = 1 * (2 * Real.pi * 6378137 / 360) := by
  have h := claim_C9_crossgrid_request svcW envW [] 0 0 0 0 dstW rfl rfl rfl
    rfl 0 4 ?_ (by norm_num) ?_ rfl 1 ?_ (0, 0, 4, 4) ?_ 0 ?_ (0, 0, 4, 4)
    rfl
  · exact ⟨h.1, h.2.1 1⟩
  · show TileMatrix.getTileCoords dstW 0 0 0 = some (0, 4)
    norm_num [TileMatrix.getTileCoords, TileMatrix.getRes,
      TileMatrix.getResExplicit, dstW, pyGet, TileMatrix.originx,
      TileMatrix.originy]
  · show ((dstW.xmin ≤ 0 ∧ (0 : ℝ) < dstW.xmax) ∧
      (dstW.ymin < 4 ∧ (4 : ℝ) ≤ dstW.ymax))
    norm_num [dstW]
  · show TileMatrix.getRes dstW 0 = some 1
    norm_num [TileMatrix.getRes, TileMatrix.getResExplicit, dstW, pyGet]
  · show TileMatrix.getTileBbox dstW 0 0 0 = some (0, 0, 4, 4)
    norm_num [TileMatrix.getTileBbox, TileMatrix.getTileCoords,
      TileMatrix.getRes, TileMatrix.getResExplicit, dstW, pyGet,
      TileMatrix.originx, TileMatrix.originy]
  · show TileMatrix.getNearestZoom svcW.srcTms (dd2meters 1) .closer = some 0
    simp [TileMatrix.getNearestZoom, TileMatrix.getResList, svcW, srcW,
      TileMatrix.nearestZoomGo]

/-! ## Claim C8: mosaic assembly -/

namespace MapService

/-- Key of a tile-data entry returned by getTiles. -/
def entryKey (e : Int × Int × Int × Option Bytes) : Int × Int × Int :=
  (e.1, e.2.1, e.2.2.1)

/-- An entry yields no usable data: either no bytes at all, or bytes
Image.open cannot decode. -/
def entryBad (decode : Bytes → Option (Nat × Nat))
    (e : Int × Int × Int × Option Bytes) : Prop :=
  match e.2.2.2 with
  | none => True
  | some b => decode b = none

/-- The pixel the assembly loop paints at offset (dx, dy) inside the
slot of an entry: a flat lightgrey placeholder for an absent tile, a
flat pink placeholder for an undecodable tile, and the decoded tile
pixel otherwise. -/
def paintPix (decode : Bytes → Option (Nat × Nat))
    (e : Int × Int × Int × Option Bytes) (dx dy : ℕ) : Pix :=
  match e.2.2.2 with
  | none => .lightgrey
  | some b =>
    match decode b with
    | none => .pink
    | some _ => .fromTile b dx dy

/-- Paste position of an entry inside the mosaic, in pixels. -/
def blockPos (T : ℕ) (firstCol firstRow : Int)
    (e : Int × Int × Int × Option Bytes) : Int × Int :=
  ((e.1 - firstCol) * T, |e.2.1 - firstRow| * T)

/-- Pixel (x, y) lies in the T-by-T rectangle at position p. -/
def inRect (T : ℕ) (p : Int × Int) (x y : ℕ) : Prop :=
  p.1 ≤ (x : Int) ∧ (x : Int) < p.1 + T ∧ p.2 ≤ (y : Int) ∧ (y : Int) < p.2 + T

/-- The paint of an entry is never the uninitialised pixel. -/
lemma paintPix_ne_unset (decode : Bytes → Option (Nat × Nat))
    (e : Int × Int × Int × Option Bytes) (dx dy : ℕ) :
    paintPix decode e dx dy ≠ Pix.unset := by
  rcases e with ⟨c, r, z, _ | b⟩
  · simp [paintPix]
  · rcases hd : decode b with _ | sz <;> simp [paintPix, hd]

/-- Two T-aligned rectangles sharing a pixel are the same rectangle. -/
lemma rect_overlap_eq (T : ℕ) (hT : 0 < T) (p q : Int × Int)
    (i1 j1 i2 j2 : Int) (hp : p = (i1 * T, j1 * T)) (hq : q = (i2 * T, j2 * T))
    (x y : ℕ) (h1 : inRect T p x y) (h2 : inRect T q x y) : p = q := by
  subst hp hq
  rcases h1 with ⟨ha1, hb1, hc1, hd1⟩
  rcases h2 with ⟨ha2, hb2, hc2, hd2⟩
  have hT' : (0 : Int) < (T : Int) := by exact_mod_cast hT
  have hi : i1 = i2 := by
    rcases lt_trichotomy i1 i2 with h | h | h
    · have : (i1 + 1) * (T : Int) ≤ i2 * T :=
        mul_le_mul_of_nonneg_right (by omega) hT'.le
      rw [add_mul, one_mul] at this
      omega
    · exact h
    · have : (i2 + 1) * (T : Int) ≤ i1 * T :=
        mul_le_mul_of_nonneg_right (by omega) hT'.le
      rw [add_mul, one_mul] at this
      omega
  have hj : j1 = j2 := by
    rcases lt_trichotomy j1 j2 with h | h | h
    · have : (j1 + 1) * (T : Int) ≤ j2 * T :=
        mul_le_mul_of_nonneg_right (by omega) hT'.le
      rw [add_mul, one_mul] at this
      omega
    · exact h
    · have : (j2 + 1) * (T : Int) ≤ j1 * T :=
        mul_le_mul_of_nonneg_right (by omega) hT'.le
      rw [add_mul, one_mul] at this
      omega
  rw [hi, hj]

/-- With allowEmptyTile false, the assembly loop aborts (absent mosaic)
as soon as any entry yields no usable data. -/
lemma assemble_none_of_bad (T : ℕ) (decode : Bytes → Option (Nat × Nat))
    (fc fr : Int) :
    ∀ (entries : List (Int × Int × Int × Option Bytes)) (img : PImage),
      (∃ e ∈ entries, entryBad decode e) →
      assemble T decode false fc fr img entries = none := by
  intro entries
  induction entries with
  | nil => intro img h; simp at h
  | cons e0 rest ih =>
    intro img h
    rcases e0 with ⟨c, r0, z, od⟩
    rcases od with _ | b
    · simp [assemble]
    · rcases hd : decode b with _ | sz
      · simp [assemble, hd]
      · rcases h with ⟨e, he, hbad⟩
        rcases List.mem_cons.mp he with rfl | he'
        · rw [entryBad] at hbad
          simp only at hbad
          exact absurd hd (by rw [hbad]; simp)
        · simp only [assemble, hd]
          exact ih _ ⟨e, he', hbad⟩

/-- With allowEmptyTile true, the assembly loop always produces a mosaic
of the same dimensions as the initial image. -/
lemma assemble_some (T : ℕ) (decode : Bytes → Option (Nat × Nat))
    (fc fr : Int) :
    ∀ (entries : List (Int × Int × Int × Option Bytes)) (img : PImage),
      ∃ m, assemble T decode true fc fr img entries = some m ∧
        m.w = img.w ∧ m.h = img.h := by
  intro entries
  induction entries with
  | nil => intro img; exact ⟨img, rfl, rfl, rfl⟩
  | cons e0 rest ih =>
    intro img
    rcases e0 with ⟨c, r0, z, od⟩
    rcases od with _ | b
    · obtain ⟨m, hm, hw, hh⟩ := ih (img.paste (PImage.new T T .lightgrey)
        ((c - fc) * T) (|r0 - fr| * T))
      exact ⟨m, by simpa [assemble] using hm, hw, hh⟩
    · rcases hd : decode b with _ | sz
      · obtain ⟨m, hm, hw, hh⟩ := ih (img.paste (PImage.new T T .pink)
          ((c - fc) * T) (|r0 - fr| * T))
        exact ⟨m, by simpa [assemble, hd] using hm, hw, hh⟩
      · obtain ⟨m, hm, hw, hh⟩ := ih (img.paste (tileImage b sz)
          ((c - fc) * T) (|r0 - fr| * T))
        exact ⟨m, by simpa [assemble, hd] using hm, hw, hh⟩

/-- A paste leaves pixels outside the pasted rectangle unchanged. -/
lemma paste_px_out (dst src : PImage) (px py : Int) (x y : ℕ)
    (h : ¬(px ≤ (x : Int) ∧ (x : Int) < px + src.w ∧
      py ≤ (y : Int) ∧ (y : Int) < py + src.h)) :
    (dst.paste src px py).px x y = dst.px x y := by
  simp only [PImage.paste, if_neg h]

/-- A paste writes the source pixel inside the pasted rectangle. -/
lemma paste_px_in (dst src : PImage) (px py : Int) (x y : ℕ)
    (h : px ≤ (x : Int) ∧ (x : Int) < px + src.w ∧
      py ≤ (y : Int) ∧ (y : Int) < py + src.h) :
    (dst.paste src px py).px x y =
      src.px ((x : Int) - px).toNat ((y : Int) - py).toNat := by
  simp only [PImage.paste, if_pos h]

/-- The assembly loop never touches a pixel that lies in no entry slot
(all pasted tiles are T-by-T: the placeholders by construction, the
decoded tiles by the decoded-size hypothesis). -/
lemma assemble_px_untouched (T : ℕ) (decode : Bytes → Option (Nat × Nat))
    (fc fr : Int)
    (hdec : ∀ b w h, decode b = some (w, h) → w = T ∧ h = T) :
    ∀ (entries : List (Int × Int × Int × Option Bytes)) (img m : PImage),
      assemble T decode true fc fr img entries = some m →
      ∀ x y : ℕ, (∀ e ∈ entries, ¬ inRect T (blockPos T fc fr e) x y) →
      m.px x y = img.px x y := by
  intro entries
  induction entries with
  | nil =>
    intro img m hm x y _
    simp only [assemble, Option.some_inj] at hm
    rw [← hm]
  | cons e0 rest ih =>
    intro img m hm x y hout
    have h0 := hout e0 (by simp)
    rcases e0 with ⟨c, r0, z, od⟩
    rw [inRect, blockPos] at h0
    simp only at h0
    rcases od with _ | b
    · simp only [assemble] at hm
      rw [ih _ m hm x y (fun e he => hout e (by simp [he])),
        paste_px_out _ _ _ _ _ _ (by simpa [PImage.new] using h0)]
    · rcases hd : decode b with _ | sz
      · simp only [assemble, hd] at hm
        rw [ih _ m hm x y (fun e he => hout e (by simp [he])),
          paste_px_out _ _ _ _ _ _ (by simpa [PImage.new] using h0)]
      · simp only [assemble, hd] at hm
        obtain ⟨hw, hh⟩ := hdec b sz.1 sz.2 (by rw [hd])
        rw [ih _ m hm x y (fun e he => hout e (by simp [he])),
          paste_px_out _ _ _ _ _ _ (by simpa [tileImage, hw, hh] using h0)]

/-- The pixel content of the finished mosaic inside the slot of an entry
is the paint of that entry, provided the entries paste at pairwise
distinct positions. -/
lemma assemble_px_covered (T : ℕ) (hT : 0 < T)
    (decode : Bytes → Option (Nat × Nat)) (fc fr : Int)
    (hdec : ∀ b w h, decode b = some (w, h) → w = T ∧ h = T) :
    ∀ (entries : List (Int × Int × Int × Option Bytes)) (img m : PImage),
      assemble T decode true fc fr img entries = some m →
      entries.Pairwise
        (fun e1 e2 => blockPos T fc fr e1 ≠ blockPos T fc fr e2) →
      ∀ e ∈ entries, ∀ x y : ℕ, inRect T (blockPos T fc fr e) x y →
        m.px x y = paintPix decode e
          ((x : Int) - (blockPos T fc fr e).1).toNat
          ((y : Int) - (blockPos T fc fr e).2).toNat := by
  intro entries
  induction entries with
  | nil => intro img m _ _ e he; simp at he
  | cons e0 rest ih =>
    intro img m hm hpw e he x y hin
    rcases List.pairwise_cons.mp hpw with ⟨hhead, htail⟩
    rcases List.mem_cons.mp he with rfl | he'
    · -- the entry itself is at the head: its paste survives the rest
      have hrest : ∀ e' ∈ rest, ¬ inRect T (blockPos T fc fr e') x y := by
        intro e' he' hin'
        exact hhead e' he'
          (rect_overlap_eq T hT (blockPos T fc fr e) (blockPos T fc fr e')
            (e.1 - fc) |e.2.1 - fr| (e'.1 - fc) |e'.2.1 - fr| rfl rfl
            x y hin hin')
      rcases e with ⟨c, r0, z, od⟩
      rw [inRect, blockPos] at hin
      simp only at hin
      rcases od with _ | b
      · simp only [assemble] at hm
        rw [assemble_px_untouched T decode fc fr hdec _ _ m hm x y hrest,
          paste_px_in _ _ _ _ _ _ (by simpa [PImage.new] using hin)]
        simp [PImage.new, paintPix, blockPos]
      · rcases hd : decode b with _ | sz
        · simp only [assemble, hd] at hm
          rw [assemble_px_untouched T decode fc fr hdec _ _ m hm x y hrest,
            paste_px_in _ _ _ _ _ _ (by simpa [PImage.new] using hin)]
          simp [PImage.new, paintPix, blockPos, hd]
        · simp only [assemble, hd] at hm
          obtain ⟨hw, hh⟩ := hdec b sz.1 sz.2 (by rw [hd])
          rw [assemble_px_untouched T decode fc fr hdec _ _ m hm x y hrest,
            paste_px_in _ _ _ _ _ _ (by simpa [tileImage, hw, hh] using hin)]
          simp [tileImage, paintPix, blockPos, hd]
    · -- the entry lies further on: step over the head paste
      rcases e0 with ⟨c, r0, z, od⟩
      rcases od with _ | b
      · simp only [assemble] at hm
        exact ih _ m hm htail e he' x y hin
      · rcases hd : decode b with _ | sz
        · simp only [assemble, hd] at hm
          exact ih _ m hm htail e he' x y hin
        · simp only [assemble, hd] at hm
          exact ih _ m hm htail e he' x y hin

/-- Specification of the sequential getTiles model on a component-closed
request list (such as the column-row product of a mosaic): every
requested key appears in the output with some data, every output entry
carries a requested key, and output keys are unique when the store keys
are. -/
lemma getTilesSeq_spec (store : TileTable) (useCache : Bool)
    (fetch : Int → Int → Int → Option Bytes)
    (tiles : List (Int × Int × Int)) (td : List (Int × Int × Int × Option Bytes))
    (hnodupS : (store.map (fun r => (r.col, r.row, r.zoom))).Nodup)
    (hnodupT : tiles.Nodup)
    (hclosed : ∀ a b c : Int, a ∈ tiles.map (fun t => t.1) →
      b ∈ tiles.map (fun t => t.2.1) → c ∈ tiles.map (fun t => t.2.2) →
      (a, b, c) ∈ tiles)
    (htd : getTilesSeq store useCache fetch tiles = .ok td) :
    (∀ t ∈ tiles, ∃ d, (t.1, t.2.1, t.2.2, d) ∈ td) ∧
    (∀ e ∈ td, (e.1, e.2.1, e.2.2.1) ∈ tiles) ∧
    (td.map entryKey).Nodup := by
  rcases hc : useCache with _ | _
  · subst hc
    simp only [getTilesSeq, Bool.false_eq_true, if_false, Except.ok.injEq] at htd
    subst htd
    refine ⟨fun t ht => ⟨fetch t.1 t.2.1 t.2.2, List.mem_map_of_mem _ ht⟩,
      fun e he => ?_, ?_⟩
    · obtain ⟨t, ht, rfl⟩ := List.mem_map.mp he
      exact ht
    · rw [List.map_map]
      have : (entryKey ∘ fun t : Int × Int × Int =>
          (t.1, t.2.1, t.2.2, fetch t.1 t.2.1 t.2.2)) = id := by
        funext t
        rfl
      rw [this, List.map_id]
      exact hnodupT
  · subst hc
    rcases tiles with _ | ⟨t0, ts⟩
    · simp [getTilesSeq, GeoPackage.getTiles] at htd
    simp only [getTilesSeq, GeoPackage.getTiles, if_true] at htd
    rw [Except.ok.injEq] at htd
    subst htd
    refine ⟨?_, ?_, ?_⟩
    · intro t ht
      by_cases hex : t ∈ (GeoPackage.getTilesHits store (t0 :: ts)).map
          (fun r => (r.1, r.2.1, r.2.2.1))
      · obtain ⟨r4, hr4, hkey⟩ := List.mem_map.mp hex
        have h1 : r4.1 = t.1 := congrArg (fun q => q.1) hkey
        have h2 : r4.2.1 = t.2.1 := congrArg (fun q => q.2.1) hkey
        have h3 : r4.2.2.1 = t.2.2 := congrArg (fun q => q.2.2) hkey
        refine ⟨some r4.2.2.2, List.mem_append_right _ ?_⟩
        have hmem4 : (r4.1, r4.2.1, r4.2.2.1, some r4.2.2.2) ∈
            (GeoPackage.getTilesHits store (t0 :: ts)).map
              (fun r => (r.1, r.2.1, r.2.2.1, some r.2.2.2)) :=
          List.mem_map_of_mem _ hr4
        rw [h1, h2, h3] at hmem4
        exact hmem4
      · refine ⟨fetch t.1 t.2.1 t.2.2, List.mem_append_left _ ?_⟩
        refine List.mem_map_of_mem _ ?_
        exact List.mem_filter.mpr ⟨ht, by simpa using hex⟩
    · intro e he
      rcases List.mem_append.mp he with he | he
      · obtain ⟨t, htmem, rfl⟩ := List.mem_map.mp he
        exact (List.mem_filter.mp htmem).1
      · obtain ⟨r4, hr4, rfl⟩ := List.mem_map.mp he
        simp only [GeoPackage.getTilesHits] at hr4
        obtain ⟨r, hrf, rfl⟩ := List.mem_map.mp hr4
        have hpred := (List.mem_filter.mp hrf).2
        rw [decide_eq_true_eq] at hpred
        exact hclosed r.col r.row r.zoom hpred.1 hpred.2.1 hpred.2.2
    · rw [List.map_append, List.map_map, List.map_map]
      have h1 : (entryKey ∘ fun t : Int × Int × Int =>
          (t.1, t.2.1, t.2.2, fetch t.1 t.2.1 t.2.2)) = id := by
        funext t; rfl
      have h2 : (entryKey ∘ fun r : Int × Int × Int × Bytes =>
          (r.1, r.2.1, r.2.2.1, some r.2.2.2)) =
          fun r => (r.1, r.2.1, r.2.2.1) := by
        funext r; rfl
      rw [h1, h2, List.map_id]
      refine List.Nodup.append (hnodupT.filter _) ?_ ?_
      · have heq : (GeoPackage.getTilesHits store (t0 :: ts)).map
            (fun r => (r.1, r.2.1, r.2.2.1)) =
            (store.filter (fun r => decide
              (r.col ∈ (t0 :: ts).map (fun t => t.1) ∧
                r.row ∈ (t0 :: ts).map (fun t => t.2.1) ∧
                r.zoom ∈ (t0 :: ts).map (fun t => t.2.2)))).map
              (fun r : TileRow => (r.col, r.row, r.zoom)) := by
          simp only [GeoPackage.getTilesHits, List.map_map]
          rfl
        rw [heq]
        exact List.Nodup.sublist
          (List.Sublist.map _ (List.filter_sublist store)) hnodupS
      · intro a ha hb
        have := (List.mem_filter.mp ha).2
        rw [decide_eq_true_eq] at this
        exact this hb

/-- Membership in the requested tile keys of a mosaic. -/
lemma planTiles_mem (p : MosaicPlan) (zoom : Int) (t : Int × Int × Int) :
    t ∈ planTiles p zoom ↔
      t.1 ∈ p.cols ∧ t.2.1 ∈ p.rows ∧ t.2.2 = zoom := by
  rcases t with ⟨a, b, c⟩
  constructor
  · intro h
    obtain ⟨cc, hcc, h2⟩ := List.mem_flatMap.mp h
    obtain ⟨rr, hrr, h3⟩ := List.mem_map.mp h2
    rw [Prod.mk.injEq, Prod.mk.injEq] at h3
    obtain ⟨rfl, rfl, rfl⟩ := h3
    exact ⟨hcc, hrr, rfl⟩
  · rintro ⟨h1, h2, rfl⟩
    exact List.mem_flatMap.mpr ⟨a, h1, List.mem_map.mpr ⟨b, h2, rfl⟩⟩

/-- The requested tile keys of a mosaic are component-closed: a key
assembled from a column, a row and a zoom occurring among the requested
keys is itself a requested key. -/
lemma planTiles_closed (p : MosaicPlan) (zoom : Int) :
    ∀ a b c : Int, a ∈ (planTiles p zoom).map (fun t => t.1) →
      b ∈ (planTiles p zoom).map (fun t => t.2.1) →
      c ∈ (planTiles p zoom).map (fun t => t.2.2) →
      (a, b, c) ∈ planTiles p zoom := by
  intro a b c ha hb hc
  obtain ⟨t, ht, rfl⟩ := List.mem_map.mp ha
  obtain ⟨u, hu, rfl⟩ := List.mem_map.mp hb
  obtain ⟨v, hv, rfl⟩ := List.mem_map.mp hc
  rw [planTiles_mem] at ht hu hv ⊢
  exact ⟨ht.1, hu.2.1, hv.2.2⟩

/-- The column-row product of two duplicate-free lists is
duplicate-free. -/
lemma nodup_colRowProd (zoom : Int) (rows : List Int) (hr : rows.Nodup) :
    ∀ cols : List Int, cols.Nodup →
      (cols.flatMap (fun c => rows.map (fun r => (c, r, zoom)))).Nodup := by
  intro cols
  induction cols with
  | nil => intro _; simp
  | cons c cs ih =>
    intro hnd
    rw [List.flatMap_cons]
    refine List.Nodup.append
      (hr.map (fun r1 r2 h => by simpa using h))
      (ih (List.nodup_cons.mp hnd).2) ?_
    intro q hq hq2
    obtain ⟨r1, -, rfl⟩ := List.mem_map.mp hq
    obtain ⟨c2, hc2, h2⟩ := List.mem_flatMap.mp hq2
    obtain ⟨r2, -, h3⟩ := List.mem_map.mp h2
    have hcc : c2 = c := congrArg (fun q => q.1) h3
    exact (List.nodup_cons.mp hnd).1 (hcc ▸ hc2)

end MapService

/-- The column list of a plan repeats no index. -/
lemma rangeAdd_nodup (fc : Int) (N : ℕ) :
    ((List.range N).map (fun (i : ℕ) => fc + (i : Int))).Nodup :=
  List.Nodup.map (fun i1 i2 h => by omega) (List.nodup_range N)

/-- The SW-origin row list of a plan repeats no index. -/
lemma rangeSub_nodup (fr : Int) (N : ℕ) :
    ((List.range N).map (fun (i : ℕ) => fr - (i : Int))).Nodup :=
  List.Nodup.map (fun i1 i2 h => by omega) (List.nodup_range N)

/-- Claim C8: a mosaic request in which at least one required tile
yields no usable data returns absent when allowEmptyTile is false; with
allowEmptyTile true (running stays true in this sequential model) the
returned raster measures exactly nbTilesX tileSize by nbTilesY tileSize
pixels, every no-data slot is filled with its flat placeholder paint,
and, provided every decodable tile decodes at the grid tile size, no
pixel of the raster is left uninitialised. -/
theorem claim_C8_mosaic {α : Type*} [LinearOrderedField α] [FloorRing α]
    (svc : MapSvc α) (store : TileTable)
    (decode : Bytes → Option (Nat × Nat))
    (fetch : Int → Int → Int → Option Bytes)
    (bbox : α × α × α × α) (zoom : Int) (toDstGrid useCache : Bool)
    (tm : TileMatrix α) (hsel : MapService.selectTm svc toDstGrid = some tm)
    (hT : 0 < tm.tileSize)
    (hdec : ∀ b w h, decode b = some (w, h) →
      w = tm.tileSize ∧ h = tm.tileSize)
    (hnodupS : (store.map (fun r => (r.col, r.row, r.zoom))).Nodup)
    (p : MapService.MosaicPlan)
    (hplan : MapService.mosaicPlan tm bbox zoom = some p)
    (td : List (Int × Int × Int × Option Bytes))
    (htd : MapService.getTilesSeq store useCache fetch
      (MapService.planTiles p zoom) = .ok td)
    (hbad : ∃ e ∈ td, MapService.entryBad decode e) :
    MapService.getImage svc store decode fetch bbox zoom toDstGrid useCache
      false = .ok none ∧
    ∃ m, MapService.getImage svc store decode fetch bbox zoom toDstGrid
        useCache true = .ok (some m) ∧
      m.w = p.cols.length * tm.tileSize ∧
      m.h = p.rows.length * tm.tileSize ∧
      (∀ e ∈ td, MapService.entryBad decode e → ∀ dx dy : ℕ,
        dx < tm.tileSize → dy < tm.tileSize →
        m.px ((e.1 - p.firstCol).toNat * tm.tileSize + dx)
          ((|e.2.1 - p.firstRow|).toNat * tm.tileSize + dy) =
          MapService.paintPix decode e dx dy) ∧
      (∀ x y : ℕ, x < p.cols.length * tm.tileSize →
        y < p.rows.length * tm.tileSize → m.px x y ≠ Pix.unset) := by
  have hplan2 := hplan
  simp only [MapService.mosaicPlan, Option.bind_eq_some,
    Option.map_eq_some'] at hplan2
  obtain ⟨res, hres, fcfr, hnum, xy0, hxy0, hpeq⟩ := hplan2
  have hcolsEq : p.cols =
      (List.range p.cols.length).map (fun (i : ℕ) => p.firstCol + (i : Int)) := by
    rw [← hpeq]
    simp
  have hrowsSplit : p.rows =
      (List.range p.rows.length).map (fun (i : ℕ) => p.firstRow + (i : Int)) ∨
      p.rows =
      (List.range p.rows.length).map (fun (i : ℕ) => p.firstRow - (i : Int)) := by
    cases ho : tm.originLoc with
    | NW => left; rw [← hpeq]; simp [ho]
    | SW => right; rw [← hpeq]; simp [ho]
  have hcolnodup : p.cols.Nodup := by
    rw [hcolsEq]; exact rangeAdd_nodup _ _
  have hrownodup : p.rows.Nodup := by
    rcases hrowsSplit with h | h
    · rw [h]; exact rangeAdd_nodup _ _
    · rw [h]; exact rangeSub_nodup _ _
  have hcolmem : ∀ c ∈ p.cols, ∃ i : ℕ,
      i < p.cols.length ∧ c = p.firstCol + (i : Int) := by
    intro c hc
    rw [hcolsEq] at hc
    obtain ⟨i, hi, rfl⟩ := List.mem_map.mp hc
    exact ⟨i, List.mem_range.mp hi, rfl⟩
  have hcolnonneg : ∀ c ∈ p.cols, p.firstCol ≤ c := by
    intro c hc
    obtain ⟨i, -, rfl⟩ := hcolmem c hc
    omega
  have hcolget : ∀ i : ℕ, i < p.cols.length →
      ∃ c ∈ p.cols, c - p.firstCol = (i : Int) := by
    intro i hi
    refine ⟨p.firstCol + (i : Int), ?_, by ring⟩
    rw [hcolsEq]
    exact List.mem_map.mpr ⟨i, List.mem_range.mpr hi, rfl⟩
  have hrowget : ∀ j : ℕ, j < p.rows.length →
      ∃ r ∈ p.rows, |r - p.firstRow| = (j : Int) := by
    intro j hj
    rcases hrowsSplit with h | h
    · refine ⟨p.firstRow + (j : Int), ?_, ?_⟩
      · rw [h]; exact List.mem_map.mpr ⟨j, List.mem_range.mpr hj, rfl⟩
      · have he : p.firstRow + (j : Int) - p.firstRow = (j : Int) := by ring
        rw [he, abs_of_nonneg (Int.natCast_nonneg j)]
    · refine ⟨p.firstRow - (j : Int), ?_, ?_⟩
      · rw [h]; exact List.mem_map.mpr ⟨j, List.mem_range.mpr hj, rfl⟩
      · have he : p.firstRow - (j : Int) - p.firstRow = -(j : Int) := by ring
        rw [he, abs_neg, abs_of_nonneg (Int.natCast_nonneg j)]
  have habs : ∀ r1 ∈ p.rows, ∀ r2 ∈ p.rows,
      |r1 - p.firstRow| = |r2 - p.firstRow| → r1 = r2 := by
    rcases hrowsSplit with h | h <;>
    · intro r1 h1 r2 h2 heq
      rw [h] at h1 h2
      obtain ⟨j1, -, rfl⟩ := List.mem_map.mp h1
      obtain ⟨j2, -, rfl⟩ := List.mem_map.mp h2
      rcases abs_eq_abs.mp heq with h | h <;> omega
  have htnodup : (MapService.planTiles p zoom).Nodup :=
    MapService.nodup_colRowProd zoom p.rows hrownodup p.cols hcolnodup
  obtain ⟨hcov, hsound, hknodup⟩ := MapService.getTilesSeq_spec store useCache
    fetch _ td hnodupS htnodup (MapService.planTiles_closed p zoom) htd
  have hkey_pair : td.Pairwise
      (fun e1 e2 => MapService.entryKey e1 ≠ MapService.entryKey e2) :=
    List.pairwise_map.mp hknodup
  have hpos_pair : td.Pairwise (fun e1 e2 =>
      MapService.blockPos tm.tileSize p.firstCol p.firstRow e1 ≠
      MapService.blockPos tm.tileSize p.firstCol p.firstRow e2) := by
    refine List.Pairwise.imp_of_mem ?_ hkey_pair
    intro e1 e2 h1 h2 hne hbp
    apply hne
    have hk1 := hsound e1 h1
    have hk2 := hsound e2 h2
    rw [MapService.planTiles_mem] at hk1 hk2
    have hbx : (e1.1 - p.firstCol) * (tm.tileSize : Int) =
        (e2.1 - p.firstCol) * (tm.tileSize : Int) :=
      congrArg (fun q => q.1) hbp
    have hby : |e1.2.1 - p.firstRow| * (tm.tileSize : Int) =
        |e2.2.1 - p.firstRow| * (tm.tileSize : Int) :=
      congrArg (fun q => q.2) hbp
    have hTz : ((tm.tileSize : Int)) ≠ 0 := by
      have : (0 : Int) < tm.tileSize := by exact_mod_cast hT
      omega
    have hcx : e1.1 = e2.1 := by
      have := mul_right_cancel₀ hTz hbx
      omega
    have hry : e1.2.1 = e2.2.1 :=
      habs _ hk1.2.1 _ hk2.2.1 (mul_right_cancel₀ hTz hby)
    have hzz : e1.2.2.1 = e2.2.2.1 := by
      have h1z : e1.2.2.1 = zoom := hk1.2.2
      have h2z : e2.2.2.1 = zoom := hk2.2.2
      rw [h1z, h2z]
    simp only [MapService.entryKey, Prod.mk.injEq]
    exact ⟨hcx, hry, hzz⟩
  have himg : ∀ ae : Bool,
      MapService.getImage svc store decode fetch bbox zoom toDstGrid useCache
        ae =
      match MapService.assemble tm.tileSize decode ae p.firstCol p.firstRow
        (PImage.new (p.cols.length * tm.tileSize)
          (p.rows.length * tm.tileSize) .unset) td with
      | none => .ok none
      | some m => .ok (some m) := by
    intro ae
    simp only [MapService.getImage, hsel, hplan, htd]
  constructor
  · rw [himg false,
      MapService.assemble_none_of_bad tm.tileSize decode p.firstCol
        p.firstRow td _ hbad]
  · obtain ⟨m, hm, hw, hh⟩ := MapService.assemble_some tm.tileSize decode
      p.firstCol p.firstRow td
      (PImage.new (p.cols.length * tm.tileSize)
        (p.rows.length * tm.tileSize) .unset)
    refine ⟨m, by rw [himg true, hm], hw, hh, ?_, ?_⟩
    · intro e he hbadE dx dy hdx hdy
      have hk := hsound e he
      rw [MapService.planTiles_mem] at hk
      have hfcle : p.firstCol ≤ e.1 := hcolnonneg e.1 hk.1
      have hXeq : (((e.1 - p.firstCol).toNat * tm.tileSize + dx : ℕ) : Int) =
          (e.1 - p.firstCol) * (tm.tileSize : Int) + dx := by
        push_cast [Int.toNat_of_nonneg (by omega : (0 : Int) ≤ e.1 - p.firstCol)]
        ring
      have hYeq : ((|e.2.1 - p.firstRow|.toNat * tm.tileSize + dy : ℕ) : Int) =
          |e.2.1 - p.firstRow| * (tm.tileSize : Int) + dy := by
        push_cast [Int.toNat_of_nonneg (abs_nonneg (e.2.1 - p.firstRow))]
        ring
      have hdx' : (dx : Int) < tm.tileSize := by exact_mod_cast hdx
      have hdy' : (dy : Int) < tm.tileSize := by exact_mod_cast hdy
      have hin : MapService.inRect tm.tileSize
          (MapService.blockPos tm.tileSize p.firstCol p.firstRow e)
          ((e.1 - p.firstCol).toNat * tm.tileSize + dx)
          (|e.2.1 - p.firstRow|.toNat * tm.tileSize + dy) := by
        rw [MapService.inRect, MapService.blockPos]
        refine ⟨?_, ?_, ?_, ?_⟩
        · rw [hXeq]; exact le_add_of_nonneg_right (Int.natCast_nonneg dx)
        · rw [hXeq]; exact add_lt_add_left hdx' _
        · rw [hYeq]; exact le_add_of_nonneg_right (Int.natCast_nonneg dy)
        · rw [hYeq]; exact add_lt_add_left hdy' _
      have hcv := MapService.assemble_px_covered tm.tileSize hT decode
        p.firstCol p.firstRow hdec td _ m hm hpos_pair e he _ _ hin
      rw [hcv]
      have hA : ((((e.1 - p.firstCol).toNat * tm.tileSize + dx : ℕ) : Int) -
          (MapService.blockPos tm.tileSize p.firstCol p.firstRow e).1).toNat =
          dx := by
        rw [MapService.blockPos, hXeq]
        simp only
        omega
      have hB : (((|e.2.1 - p.firstRow|.toNat * tm.tileSize + dy : ℕ) : Int) -
          (MapService.blockPos tm.tileSize p.firstCol p.firstRow e).2).toNat =
          dy := by
        rw [MapService.blockPos, hYeq]
        simp only
        omega
      rw [hA, hB]
    · intro x y hx hy
      have hxT : x / tm.tileSize < p.cols.length :=
        (Nat.div_lt_iff_lt_mul hT).mpr (by omega)
      have hyT : y / tm.tileSize < p.rows.length :=
        (Nat.div_lt_iff_lt_mul hT).mpr (by omega)
      obtain ⟨c, hcmem, hci⟩ := hcolget _ hxT
      obtain ⟨r, hrmem, hrj⟩ := hrowget _ hyT
      have hkey : ((c, r, zoom) : Int × Int × Int) ∈
          MapService.planTiles p zoom :=
        (MapService.planTiles_mem p zoom _).mpr ⟨hcmem, hrmem, rfl⟩
      obtain ⟨d, hd⟩ := hcov _ hkey
      have hlex : x / tm.tileSize * tm.tileSize ≤ x := Nat.div_mul_le_self x _
      have hltx : x < x / tm.tileSize * tm.tileSize + tm.tileSize := by
        have h1 := Nat.div_add_mod x tm.tileSize
        have h2 := Nat.mod_lt x hT
        have h3 : tm.tileSize * (x / tm.tileSize) =
            x / tm.tileSize * tm.tileSize := Nat.mul_comm _ _
        omega
      have hley : y / tm.tileSize * tm.tileSize ≤ y := Nat.div_mul_le_self y _
      have hlty : y < y / tm.tileSize * tm.tileSize + tm.tileSize := by
        have h1 := Nat.div_add_mod y tm.tileSize
        have h2 := Nat.mod_lt y hT
        have h3 : tm.tileSize * (y / tm.tileSize) =
            y / tm.tileSize * tm.tileSize := Nat.mul_comm _ _
        omega
      have hin : MapService.inRect tm.tileSize
          (MapService.blockPos tm.tileSize p.firstCol p.firstRow
            (c, r, zoom, d)) x y := by
        rw [MapService.inRect, MapService.blockPos]
        simp only
        rw [hci, hrj]
        refine ⟨by exact_mod_cast hlex, by exact_mod_cast hltx,
          by exact_mod_cast hley, by exact_mod_cast hlty⟩
      have hcv := MapService.assemble_px_covered tm.tileSize hT decode
        p.firstCol p.firstRow hdec td _ m hm hpos_pair (c, r, zoom, d) hd
        x y hin
      rw [hcv]
      exact MapService.paintPix_ne_unset decode _ _ _

/-- Decoder for the mosaic witness: byte token 7 decodes as a 4-by-4
image, everything else fails to decode. -/
def decodeW : Bytes → Option (ℕ × ℕ) := fun b => if b = 7 then some (4, 4) else none

/-- Worker outcome for the mosaic witness: column 0 fetches byte token 7,
column 1 yields nothing. -/
def fetchW : Int → Int → Int → Option Bytes :=
  fun c _ _ => if c = 0 then some 7 else none

/-- Witness for claim C8: a two-column one-row mosaic on the concrete
grid where the second tile yields no data is absent in strict mode and,
in placeholder mode, an 8-by-4 raster with the missing slot painted
lightgrey and no uninitialised pixel. -/
theorem claim_C8_witness :
    MapService.getImage svcC6 [] decodeW fetchW ((0 : ℚ), 0, 8, 4) 0 false
      false false = .ok none ∧
    ∃ m, MapService.getImage svcC6 [] decodeW fetchW ((0 : ℚ), 0, 8, 4) 0
        false false true = .ok (some m) ∧
      m.w = 8 ∧ m.h = 4 ∧ m.px 4 0 = Pix.lightgrey ∧ m.px 0 0 ≠ Pix.unset := by
  have hplanW : MapService.mosaicPlan (tmQ [1]) ((0 : ℚ), 0, 8, 4) 0 =
      some ⟨0, 0, [0, 1], [0]⟩ := by
    norm_num [MapService.mosaicPlan, TileMatrix.getRes,
      TileMatrix.getResExplicit, tmQ, pyGet, TileMatrix.getTileNumber,
      TileMatrix.getTileCoords, TileMatrix.originx, TileMatrix.originy,
      List.range_succ]
    decide
  have htdW : MapService.getTilesSeq [] false fetchW
      (MapService.planTiles ⟨0, 0, [0, 1], [0]⟩ 0) =
      .ok [(0, 0, 0, some 7), (1, 0, 0, none)] := rfl
  have h := claim_C8_mosaic svcC6 [] decodeW fetchW ((0 : ℚ), 0, 8, 4) 0
    false false (tmQ [1]) rfl (by norm_num [tmQ])
    (fun b w hgt hb => by
      by_cases h7 : b = 7 <;> simp [decodeW, h7, tmQ] at hb ⊢ <;> omega)
    (by simp) ⟨0, 0, [0, 1], [0]⟩ hplanW _ htdW
    ⟨(1, 0, 0, none), by norm_num, trivial⟩
  obtain ⟨h1, m, hm, hw, hh, hph, hun⟩ := h
  refine ⟨h1, m, hm, by simpa [tmQ] using hw, by simpa [tmQ] using hh, ?_, ?_⟩
  · have := hph (1, 0, 0, none) (by norm_num) trivial 0 0 (by norm_num [tmQ])
      (by norm_num [tmQ])
    simpa [tmQ, MapService.paintPix] using this
  · exact hun 0 0 (by norm_num [tmQ]) (by norm_num [tmQ])
